import Mathlib

set_option maxRecDepth 8000

/-!
Shallow embedding of the CSV ingestion / row-to-record transformation core of
the Demco-FCR-Draft-Make repository (React front end).  The JavaScript source
is embedded as executable Lean definitions over `String` / `List Char`;
machine floats never matter for the verified claims, so JavaScript numbers
produced by `parseFloat` are modelled as exact signed decimals (faithful for
the decimal-literal fragment of inputs the pipeline handles; no exponent or
hexadecimal literal forms, which none of the claims exercise).  JavaScript
builtins (`parseInt`, `parseFloat`, `String.prototype.trim`, `new Date`,
object property enumeration order) are modelled from their ECMAScript
semantics on the fragments of inputs that appear in the pipeline; each such
model carries a doc comment describing the fragment.
-/

namespace Demco

/-- Model of ECMAScript WhiteSpace/LineTerminator on the ASCII fragment
(space, tab, newline, carriage return); used by `trim`, `parseInt`,
`parseFloat`. -/
def jsWs (c : Char) : Bool :=
  c.toNat = 32 || c.toNat = 9 || c.toNat = 10 || c.toNat = 13

/-- Decimal digit test on characters, `'0'`..`'9'`. -/
def isDigitC (c : Char) : Bool :=
  48 ≤ c.toNat && c.toNat ≤ 57

/-- Value of a decimal digit character. -/
def charVal (c : Char) : Nat :=
  c.toNat - 48

/-- Character for a decimal digit value. -/
def digitCh (d : Nat) : Char :=
  Char.ofNat (48 + d)

/-- Fuel-driven digit extraction, least significant digit last; the fuel is
an upper bound on the value so the recursion is structural (and so evaluates
inside the kernel, unlike `Nat.digits`). -/
def natCharsCore : Nat → Nat → List Char
  | 0, _ => []
  | fuel + 1, n => if n = 0 then [] else natCharsCore fuel (n / 10) ++ [digitCh (n % 10)]

/-- Decimal numeral of a natural number as a character list, most significant
digit first; models ECMAScript `Number::toString` on integer values. -/
def natChars (n : Nat) : List Char :=
  if n = 0 then [digitCh 0] else natCharsCore n n

theorem natCharsCore_eq {fuel n : Nat} (h : n ≤ fuel) :
    natCharsCore fuel n = ((Nat.digits 10 n).map digitCh).reverse := by
  induction fuel generalizing n with
  | zero =>
    interval_cases n
    simp [natCharsCore]
  | succ f ih =>
    by_cases hn : n = 0
    · subst hn; simp [natCharsCore]
    · have hdiv : n / 10 ≤ f := by
        have h1 : n / 10 < n := Nat.div_lt_self (Nat.pos_of_ne_zero hn) (by norm_num)
        omega
      rw [natCharsCore, if_neg hn, ih hdiv,
        Nat.digits_def' (show (1:Nat) < 10 by norm_num) (Nat.pos_of_ne_zero hn)]
      simp

theorem natChars_eq (n : Nat) :
    natChars n = if n = 0 then [digitCh 0] else ((Nat.digits 10 n).map digitCh).reverse := by
  unfold natChars
  by_cases hn : n = 0
  · simp [hn]
  · rw [if_neg hn, if_neg hn, natCharsCore_eq (le_refl n)]

/-- Value of a list of decimal digit characters, most significant first
(leading zeros allowed); the empty list has value 0. -/
def natOfChars (cs : List Char) : Nat :=
  Nat.ofDigits 10 ((cs.map charVal).reverse)

/-- Parse a character list as an all-digit decimal numeral. -/
def parseNatAll (cs : List Char) : Option Nat :=
  if cs ≠ [] ∧ cs.all isDigitC then some (natOfChars cs) else none

theorem charVal_digitCh {d : Nat} (hd : d < 10) : charVal (digitCh d) = d := by
  interval_cases d <;> rfl

theorem isDigitC_digitCh {d : Nat} (hd : d < 10) : isDigitC (digitCh d) = true := by
  interval_cases d <;> rfl

theorem digitCh_ne_dash {d : Nat} (hd : d < 10) : digitCh d ≠ '-' := by
  interval_cases d <;> decide

theorem digitCh_ne_dot {d : Nat} (hd : d < 10) : digitCh d ≠ '.' := by
  interval_cases d <;> decide

theorem natChars_ne_nil (n : Nat) : natChars n ≠ [] := by
  rw [natChars_eq]
  split
  · simp
  · next h =>
    have hne : Nat.digits 10 n ≠ [] := Nat.digits_ne_nil_iff_ne_zero.mpr h
    simpa using hne

theorem natChars_all_digit (n : Nat) : (natChars n).all isDigitC = true := by
  rw [natChars_eq]
  split
  · decide
  · next h =>
    rw [List.all_eq_true]
    intro c hc
    rw [List.mem_reverse, List.mem_map] at hc
    obtain ⟨d, hd, rfl⟩ := hc
    exact isDigitC_digitCh (Nat.digits_lt_base (by norm_num) hd)

theorem natChars_no_dash (n : Nat) : ∀ c ∈ natChars n, c ≠ '-' := by
  rw [natChars_eq]
  split
  · intro c hc; simp at hc; subst hc; decide
  · next h =>
    intro c hc
    rw [List.mem_reverse, List.mem_map] at hc
    obtain ⟨d, hd, rfl⟩ := hc
    exact digitCh_ne_dash (Nat.digits_lt_base (by norm_num) hd)

theorem natOfChars_natChars (n : Nat) : natOfChars (natChars n) = n := by
  unfold natOfChars
  rw [natChars_eq]
  split
  · next h => subst h; decide
  · next h =>
    rw [List.map_reverse, List.reverse_reverse, List.map_map]
    have hid : ∀ l : List Nat, (∀ d ∈ l, d < 10) → l.map (charVal ∘ digitCh) = l := by
      intro l
      induction l with
      | nil => intro _; rfl
      | cons a t ih =>
        intro hl
        simp only [List.map_cons, Function.comp_apply]
        rw [charVal_digitCh (hl a (by simp)), ih (fun d hd => hl d (by simp [hd]))]
    rw [hid _ (fun d hd => Nat.digits_lt_base (by norm_num) hd), Nat.ofDigits_digits]

theorem parseNatAll_natChars (n : Nat) : parseNatAll (natChars n) = some n := by
  unfold parseNatAll
  rw [if_pos ⟨natChars_ne_nil n, natChars_all_digit n⟩, natOfChars_natChars]

theorem natChars_length_le {n k : Nat} (hk : 0 < k) (h : n < 10 ^ k) :
    (natChars n).length ≤ k := by
  rw [natChars_eq]
  split
  · simpa using hk
  · next hn =>
    rw [List.length_reverse, List.length_map]
    by_contra hlen
    push_neg at hlen
    have h1 : 10 ^ (Nat.digits 10 n).length ≤ 10 * n :=
      Nat.base_pow_length_digits_le 10 n (by norm_num) hn
    have h2 : 10 ^ (k + 1) ≤ 10 ^ (Nat.digits 10 n).length :=
      Nat.pow_le_pow_right (by norm_num) hlen
    have h3 : 10 * (10 ^ k) ≤ 10 * n := by
      calc 10 * 10 ^ k = 10 ^ (k + 1) := by ring
      _ ≤ 10 ^ (Nat.digits 10 n).length := h2
      _ ≤ 10 * n := h1
    have := Nat.le_of_mul_le_mul_left h3 (by norm_num)
    omega

theorem natChars_length_ge {n k : Nat} (h : 10 ^ k ≤ n) :
    k < (natChars n).length := by
  have hn : n ≠ 0 := by
    have h1 : 1 ≤ 10 ^ k := Nat.one_le_pow k 10 (by norm_num)
    omega
  rw [natChars_eq, if_neg hn, List.length_reverse, List.length_map]
  by_contra hlen
  push_neg at hlen
  have h1 : n < 10 ^ (Nat.digits 10 n).length :=
    Nat.lt_base_pow_length_digits (by norm_num)
  have h2 : (10 : Nat) ^ (Nat.digits 10 n).length ≤ 10 ^ k :=
    Nat.pow_le_pow_right (by norm_num) hlen
  omega

theorem natChars_length_pos (n : Nat) : 0 < (natChars n).length :=
  List.length_pos.mpr (natChars_ne_nil n)

/-- Model of `String.prototype.trim` on the ASCII-whitespace fragment:
drop `jsWs` characters from both ends. -/
def jsTrim (s : String) : String :=
  String.mk (((s.data.dropWhile jsWs).reverse.dropWhile jsWs).reverse)

/-- An ECMAScript number produced by `parseFloat`, modelled as an exact
signed decimal: sign, integer part and fractional digit values.  Faithful
for decimal literals below the double-precision rounding threshold
(≤ 15 significant digits), which covers every value the pipeline handles;
no exponent notation. -/
structure JSNum where
  neg : Bool
  ip : Nat
  frac : List Nat
  deriving DecidableEq, Repr

/-- Consume an optional leading sign; first component is true for a minus
sign. -/
def stripSign (cs : List Char) : Bool × List Char :=
  match cs with
  | [] => (false, [])
  | c :: t => if c = '-' then (true, t) else if c = '+' then (false, t) else (false, c :: t)

/-- Model of `parseFloat` on the decimal fragment: skip leading whitespace,
optional sign, digits, optional `.` and digits; trailing garbage is ignored;
`none` models `NaN` (no digits at all).  Exponent forms, `Infinity` and
hexadecimal input are outside the modelled fragment. -/
def jsParseFloat (s : String) : Option JSNum :=
  let cs := s.data.dropWhile jsWs
  let sgn : Bool × List Char := stripSign cs
  let ipChars := sgn.2.takeWhile isDigitC
  let rest := sgn.2.dropWhile isDigitC
  let fracChars : List Char :=
    match rest with
    | '.' :: t => t.takeWhile isDigitC
    | _ => []
  if ipChars = [] ∧ fracChars = [] then none
  else some ⟨sgn.1, natOfChars ipChars, fracChars.map charVal⟩

/-- Drop trailing zero digits of a fractional part (ECMAScript
`Number::toString` prints the shortest decimal form; on exact decimals this
is the form without trailing fractional zeros). -/
def trimFracZeros (l : List Nat) : List Nat :=
  (l.reverse.dropWhile (· = 0)).reverse

/-- Model of ECMAScript `Number::toString` on exact decimals: sign (dropped
for zero magnitude, as for JavaScript `-0`), integer part, and the fractional
digits without trailing zeros. -/
def jsNumToString (n : JSNum) : String :=
  String.mk ((if n.neg ∧ (n.ip ≠ 0 ∨ trimFracZeros n.frac ≠ []) then ['-'] else []) ++
    (natChars n.ip ++
      (if trimFracZeros n.frac = [] then [] else '.' :: (trimFracZeros n.frac).map digitCh)))

/-- String conversion of a possibly-NaN number (`none` prints `"NaN"`). -/
def jsNumOptToString (n : Option JSNum) : String :=
  match n with
  | none => String.mk ['N', 'a', 'N']
  | some v => jsNumToString v

/-- Truncation toward zero of an exact decimal, as ECMAScript `ToIntegerOrInfinity`
or `parseInt` of the printed value performs on our fragment. -/
def jsTruncInt (n : JSNum) : Int :=
  if n.neg then -(n.ip : Int) else (n.ip : Int)

/-- Decimal string of an integer, modelling `Number::toString` on integral
values (within the exactly-representable range). -/
def intChars (i : Int) : List Char :=
  if i < 0 then '-' :: natChars i.natAbs else natChars i.toNat

/-- String of a possibly-NaN integer result (`none` models `NaN`). -/
def intOptToString (i : Option Int) : String :=
  match i with
  | none => String.mk ['N', 'a', 'N']
  | some v => String.mk (intChars v)

/-- Extended digit value for `parseInt`: `0`-`9`, `a`-`z`, `A`-`Z`. -/
def digitValExt (c : Char) : Option Nat :=
  if 48 ≤ c.toNat ∧ c.toNat ≤ 57 then some (c.toNat - 48)
  else if 97 ≤ c.toNat ∧ c.toNat ≤ 122 then some (c.toNat - 87)
  else if 65 ≤ c.toNat ∧ c.toNat ≤ 90 then some (c.toNat - 55)
  else none

/-- Is `c` a digit admissible in radix `r`? -/
def isRadixDigit (r : Nat) (c : Char) : Bool :=
  match digitValExt c with
  | some v => decide (v < r)
  | none => false

/-- Strip a `0x`/`0X` numeral head. -/
def strip0x (cs : List Char) : List Char :=
  match cs with
  | '0' :: 'x' :: t => t
  | '0' :: 'X' :: t => t
  | t => t

/-- Model of `parseInt(string, radix)` per ECMAScript: skip whitespace, read
an optional sign, default the radix to 10 (with `0x` detection) when it is 0,
reject radices outside `[2,36]`, consume the longest admissible digit run,
`none` for `NaN` (no digits). -/
def jsParseIntCore (r : Nat) (body : List Char) (neg : Bool) : Option Int :=
  if body.takeWhile (isRadixDigit r) = [] then none
  else
    some ((if neg then -1 else 1) *
      ((Nat.ofDigits r
        (((body.takeWhile (isRadixDigit r)).map (fun c => (digitValExt c).getD 0)).reverse) : Nat) : Int))

/-- See the fragment description below: digit-run scan after sign and radix
resolution. -/
def jsParseInt (s : String) (radix : Int) : Option Int :=
  if radix = 0 then
    if (stripSign (s.data.dropWhile jsWs)).2.take 2 = ['0', 'x']
        ∨ (stripSign (s.data.dropWhile jsWs)).2.take 2 = ['0', 'X'] then
      jsParseIntCore 16 (strip0x (stripSign (s.data.dropWhile jsWs)).2)
        (stripSign (s.data.dropWhile jsWs)).1
    else
      jsParseIntCore 10 (stripSign (s.data.dropWhile jsWs)).2
        (stripSign (s.data.dropWhile jsWs)).1
  else if radix < 2 ∨ 36 < radix then none
  else
    jsParseIntCore radix.toNat
      (if radix = 16 then strip0x (stripSign (s.data.dropWhile jsWs)).2
        else (stripSign (s.data.dropWhile jsWs)).2)
      (stripSign (s.data.dropWhile jsWs)).1

/-- Model of ECMAScript `ToNumber` on strings, decimal fragment: trims
whitespace, empty becomes `0`, otherwise the whole remaining string must be a
signed decimal literal; `none` models `NaN`. -/
def jsToNumber (s : String) : Option JSNum :=
  let cs := (s.data.dropWhile jsWs).reverse.dropWhile jsWs |>.reverse
  if cs = [] then some ⟨false, 0, []⟩
  else
    let sgn : Bool × List Char := stripSign cs
    let ipChars := sgn.2.takeWhile isDigitC
    let rest := sgn.2.dropWhile isDigitC
    let fracChars : List Char :=
      match rest with
      | '.' :: t => t.takeWhile isDigitC
      | _ => []
    let leftover : List Char :=
      match rest with
      | '.' :: t => t.dropWhile isDigitC
      | t => t
    if (ipChars = [] ∧ fracChars = []) ∨ leftover ≠ [] then none
    else some ⟨sgn.1, natOfChars ipChars, fracChars.map charVal⟩

/-- Model of ECMAScript `ToInt32` applied to a string: `ToNumber`, truncate
toward zero, wrap into the signed 32-bit range (`NaN` maps to 0). -/
def jsToInt32Str (s : String) : Int :=
  match jsToNumber s with
  | none => 0
  | some n =>
    let r := (jsTruncInt n) % 4294967296
    if r ≥ 2147483648 then r - 4294967296 else r

/-- Model of `String.prototype.padStart(n, c)`. -/
def jsPadStart (s : String) (n : Nat) (c : Char) : String :=
  String.mk (List.replicate (n - s.data.length) c ++ s.data)

/-- The string ECMAScript produces for `String(parseFloat)` in V8, the first
argument actually passed to `parseInt` by `FCRGenerator.jsx`. -/
def parseFloatFnSrc : String :=
  "function parseFloat() \x7b [native code] \x7d"

/-- Source: `formatExpSerial` of `src/unnamed/part_002` lines 50-57 (and
`part_003` lines 40-47): `parseInt(parseFloat(expSerial), 10)` then
`.toString().padStart(6, '0')`; the `catch` branch is unreachable because
none of these operations throws in JavaScript. -/
def formatExpSerial (expSerial : String) : String :=
  jsPadStart (intOptToString (jsParseInt (jsNumOptToString (jsParseFloat expSerial)) 10)) 6 '0'

/-- Source: `formatExpSerial` of `src/Client/src/FCRGenerator.jsx` lines
31-38: `parseInt(parseFloat, expSerial)` passes the `parseFloat` function
itself as the string to parse (converted to its source string) and the
serial as the radix; the `catch` branch is unreachable. -/
def formatExpSerialGen (expSerial : String) : String :=
  jsPadStart (intOptToString (jsParseInt parseFloatFnSrc (jsToInt32Str expSerial))) 6 '0'

/-- Source: `formatNumber` of `src/Client/src/FCRGenerator.jsx` lines 55-64
(identical in `part_002` lines 74-83): empty input gives `''`; `parseFloat`
`NaN` gives the input back; otherwise the canonical decimal rendering (the
two branches of the source conditional are the same expression). -/
def formatNumber (value : String) : String :=
  if value.data = [] then String.mk []
  else
    match jsParseFloat value with
    | none => value
    | some n => jsNumToString n

/-- Split a character list on `'-'` separators (always returns at least one
part). -/
def splitDash : List Char → List (List Char)
  | [] => [[]]
  | c :: cs =>
    match splitDash cs with
    | [] => [[c]]
    | h :: t => if c = '-' then [] :: h :: t else (c :: h) :: t

/-- Days in a month, proleptic Gregorian. -/
def daysInMonth (y m : Nat) : Nat :=
  if m = 2 then (if (y % 4 = 0 ∧ y % 100 ≠ 0) ∨ y % 400 = 0 then 29 else 28)
  else if m = 4 ∨ m = 6 ∨ m = 9 ∨ m = 11 then 30 else 31

/-- Model of `new Date(string)` followed by `getFullYear`/`getMonth`/`getDate`
as used by `formatDate`, for a V8 engine in a UTC environment, on the
dash-separated fragment of date strings the pipeline handles: the ISO form
`YYYY-MM-DD` (date-only, interpreted as UTC midnight) and the legacy
US-convention fallback `MM-DD-YYYY` / `M-D-YYYY` (the fallback V8 applies to
`DD-MM-YYYY`-looking strings, reading the first component as the month).
Returns `(year, month, day)`; `none` models an invalid date.  Other formats
(slashes, month names, times) are outside the modelled fragment. -/
def jsDateParse3 (p1 p2 p3 : List Char) : Option (Nat × Nat × Nat) :=
  if p1.length = 4 ∧ p2.length = 2 ∧ p3.length = 2 then
    match parseNatAll p1, parseNatAll p2, parseNatAll p3 with
    | some y, some m, some d =>
      if 1 ≤ m ∧ m ≤ 12 ∧ 1 ≤ d ∧ d ≤ daysInMonth y m then some (y, m, d) else none
    | _, _, _ => none
  else if (1 ≤ p1.length ∧ p1.length ≤ 2) ∧ (1 ≤ p2.length ∧ p2.length ≤ 2) ∧ p3.length = 4 then
    match parseNatAll p1, parseNatAll p2, parseNatAll p3 with
    | some m, some d, some y =>
      if 1 ≤ m ∧ m ≤ 12 ∧ 1 ≤ d ∧ d ≤ 31 then some (y, m, d) else none
    | _, _, _ => none
  else none

/-- See the fragment description above: dispatch on the dash-separated
parts. -/
def jsDateParse (s : String) : Option (Nat × Nat × Nat) :=
  match splitDash s.data with
  | [p1, p2, p3] => jsDateParse3 p1 p2 p3
  | _ => none

/-- Two-digit zero padding at character-list level
(`.toString().padStart(2, '0')`). -/
def pad2 (n : Nat) : List Char :=
  List.replicate (2 - (natChars n).length) '0' ++ natChars n

/-- The `DD-MM-YYYY` rendering `formatDate` produces on a parsed date. -/
def fmtDMY (y m d : Nat) : String :=
  String.mk (pad2 d ++ ('-' :: (pad2 m ++ ('-' :: natChars y))))

/-- Source: `formatDate` of `src/Client/src/FCRGenerator.jsx` lines 40-53
(identical in `part_002` lines 59-72 and `part_003`): empty input gives
`''`; an unparseable date string is returned unchanged; a parsed date is
rendered `DD-MM-YYYY` with 2-digit padding and the unpadded year. -/
def formatDate (dateStr : String) : String :=
  if dateStr.data = [] then String.mk []
  else
    match jsDateParse dateStr with
    | none => dateStr
    | some (y, m, d) => fmtDMY y m d

/-- One parsed FCR-mode CSV row: the 12 required columns, in source order
`EXP Serial`, `Invoice Date`, `Entry Date`, `Date of Contact`,
`Description`, `PO Numbers`, `Invoice No`, `AD Code`, `EXP Year`,
`Lc Contact`, `Country short code`, `Goods`; a missing value is the empty
string (the source applies `|| ''` before use). -/
structure FCRRow where
  expSerial : String
  invoiceDate : String
  entryDate : String
  dateOfContact : String
  description : String
  poNumbers : String
  invoiceNo : String
  adCode : String
  expYear : String
  lcContact : String
  countryShortCode : String
  goods : String
  deriving DecidableEq, Repr

/-- Source: the per-row body of `processData` in `src/unnamed/part_002`
lines 268-306 (identical in `part_003` except for the first template line):
normalizes the serial, the three dates and the three numeric fields, then
builds the fixed 11-line template whose first line is the literal
`100% PORCELAIN TABLEWARE`. -/
def fcrFormattedText (row : FCRRow) : String :=
  let expSerial := formatExpSerial row.expSerial
  let invoiceDate := formatDate row.invoiceDate
  let entryDate := formatDate row.entryDate
  let contactDate := formatDate row.dateOfContact
  let invoiceNo := formatNumber row.invoiceNo
  let adCode := formatNumber row.adCode
  let expYear := formatNumber row.expYear
  "100% PORCELAIN TABLEWARE" ++ "\nORDER NO. : " ++ row.poNumbers
    ++ "\nDESCRIPTION OF GOODS. : " ++ row.goods
    ++ "\nINVOICE NO. : " ++ invoiceNo
    ++ "\nDATE: " ++ invoiceDate
    ++ "\nEXP NO. : " ++ adCode ++ "/" ++ expSerial ++ "/" ++ expYear
    ++ "\nDATE: " ++ entryDate
    ++ "\nCONTRACT NO. : " ++ row.lcContact
    ++ "\nDATE: " ++ contactDate
    ++ "\nH. S. CODE: 6911.10.00"
    ++ "\nCOUNTRY: " ++ row.countryShortCode

/-- Source: the per-row body of `processData` in
`src/Client/src/FCRGenerator.jsx` lines 148-186: same template but the first
line substitutes the row's `Description` field, and the serial goes through
this module's `parseInt(parseFloat, expSerial)` variant of
`formatExpSerial`. -/
def fcrFormattedTextGen (row : FCRRow) : String :=
  let expSerial := formatExpSerialGen row.expSerial
  let invoiceDate := formatDate row.invoiceDate
  let entryDate := formatDate row.entryDate
  let contactDate := formatDate row.dateOfContact
  let invoiceNo := formatNumber row.invoiceNo
  let adCode := formatNumber row.adCode
  let expYear := formatNumber row.expYear
  row.description ++ "\nORDER NO. : " ++ row.poNumbers
    ++ "\nDESCRIPTION OF GOODS. : " ++ row.goods
    ++ "\nINVOICE NO. : " ++ invoiceNo
    ++ "\nDATE: " ++ invoiceDate
    ++ "\nEXP NO. : " ++ adCode ++ "/" ++ expSerial ++ "/" ++ expYear
    ++ "\nDATE: " ++ entryDate
    ++ "\nCONTRACT NO. : " ++ row.lcContact
    ++ "\nDATE: " ++ contactDate
    ++ "\nH. S. CODE: 6911.10.00"
    ++ "\nCOUNTRY: " ++ row.countryShortCode

/-- One parsed PO-mode CSV row: columns `Invoice`, `PO`, `Goods`; a missing
value is the empty string (missing and empty behave identically in the
source, which only tests truthiness and trims). -/
structure PORow where
  invoice : String
  po : String
  goods : String
  deriving DecidableEq, Repr

/-- One parsed recycled-reference CSV row: single column `PO`. -/
structure RecRow where
  po : String
  deriving DecidableEq, Repr

/-- First value bound to a key in an association list (JavaScript property
read `m[k]`, `none` for `undefined`). -/
def lookupA {α : Type} (m : List (String × α)) (k : String) : Option α :=
  match m with
  | [] => none
  | p :: rest => if p.1 = k then some p.2 else lookupA rest k

/-- Key presence (`!m[k]` is false for the array/string values stored here
exactly when the key is present). -/
def containsKey {α : Type} (m : List (String × α)) (k : String) : Bool :=
  (lookupA m k).isSome

/-- Append a value to the list bound to `k` (JavaScript `m[k].push(v)`). -/
def appendAt (m : List (String × List String)) (k : String) (v : String) :
    List (String × List String) :=
  m.map (fun p => if p.1 = k then (p.1, p.2 ++ [v]) else p)

/-- The per-row mutation of `processPOData` (`src/unnamed/part_000` lines
120-134): trim the three fields; skip rows with an empty invoice; create
empty accumulators in both maps on first sight of an invoice (the presence
test is on the PO map, as in the source); push non-empty PO and goods
values. -/
def poPush (m : List (String × List String)) (k v : String) : List (String × List String) :=
  if v.data = [] then m else appendAt m k v

/-- The per-row mutation continued: push the trimmed PO / goods values when
non-empty. -/
def poStep (acc : List (String × List String) × List (String × List String)) (row : PORow) :
    List (String × List String) × List (String × List String) :=
  if (jsTrim row.invoice).data = [] then acc
  else if containsKey acc.1 (jsTrim row.invoice) then
    (poPush acc.1 (jsTrim row.invoice) (jsTrim row.po),
      poPush acc.2 (jsTrim row.invoice) (jsTrim row.goods))
  else
    (poPush (acc.1 ++ [(jsTrim row.invoice, [])]) (jsTrim row.invoice) (jsTrim row.po),
      poPush (acc.2 ++ [(jsTrim row.invoice, [])]) (jsTrim row.invoice) (jsTrim row.goods))

/-- Source: `processPOData` of `src/unnamed/part_000` lines 114-138: a
left-to-right scan of the rows building the invoice→PO-list and
invoice→goods-list maps (JavaScript objects, here insertion-ordered
association lists; the `__proto__` key quirk of JavaScript objects is
outside the modelled fragment). -/
def processPOData (rows : List PORow) :
    List (String × List String) × List (String × List String) :=
  rows.foldl poStep ([], [])

/-- Is `s` a canonical array-index property key (ECMAScript: the canonical
decimal numeral of an integer in `[0, 2^32-2]`)?  Such keys are enumerated
first, in ascending numeric order, by `Object.entries`. -/
def isArrayIndexKey (s : String) : Bool :=
  match s.data with
  | [] => false
  | c :: cs =>
    (c :: cs).all isDigitC &&
      (decide (c ≠ '0') || decide (cs = [])) &&
      decide (natOfChars (c :: cs) < 4294967295)

/-- Numeric value of a key used for array-index ordering. -/
def keyNum (s : String) : Nat :=
  natOfChars s.data

/-- Model of ECMAScript `Object.entries` enumeration order
(`OrdinaryOwnPropertyKeys`): array-index keys first in ascending numeric
order, then the remaining string keys in insertion order. -/
def objEntries {α : Type} (m : List (String × α)) : List (String × α) :=
  (m.filter (fun p => isArrayIndexKey p.1)).insertionSort
      (fun p q => keyNum p.1 ≤ keyNum q.1)
    ++ m.filter (fun p => !isArrayIndexKey p.1)

/-- Material-type string constants of `src/unnamed/part_000` lines 10-12. -/
def TYPE_MIXED : String :=
  "100% PORCELAIN TABLEWARE AND 80% PORCELAIN, 20% RECYCLED PRE-CONSUMER PORCELAIN"

/-- Material-type string for all-recycled invoices. -/
def TYPE_RECYCLED : String :=
  "80% PORCELAIN, 20% RECYCLED PRE-CONSUMER PORCELAIN"

/-- Material-type string for invoices with no recycled PO. -/
def TYPE_NORMAL : String :=
  "100% PORCELAIN TABLEWARE"

/-- The classification body of `determineInvoiceType`
(`src/unnamed/part_000` lines 146-159): `hasRecycled` when some PO of the
invoice is in the recycled set, `hasNormal` when some PO is outside the set
and truthy (non-empty). -/
def classifyPO (posList : List String) (recycledSet : List String) : String :=
  if posList.any (fun po => recycledSet.contains po)
      && posList.any (fun po => !recycledSet.contains po && !(po.data = [])) then TYPE_MIXED
  else if posList.any (fun po => recycledSet.contains po) then TYPE_RECYCLED
  else TYPE_NORMAL

/-- Source: `determineInvoiceType` of `src/unnamed/part_000` lines 140-164:
iterates `Object.entries(invoicePOMap)` and assigns each invoice its
material-type string. -/
def determineInvoiceType (invoicePOMap : List (String × List String))
    (recycledSet : List String) : List (String × String) :=
  (objEntries invoicePOMap).map (fun p => (p.1, classifyPO p.2 recycledSet))

/-- The recycled PO set built in `processData` (`src/unnamed/part_000` lines
179-183): trimmed `PO` cells with empties dropped (a JavaScript `Set`; only
membership is used, so the deduplication is immaterial and a list models
it). -/
def recycledPOSet (rows : List RecRow) : List String :=
  (rows.map (fun r => jsTrim r.po)).filter (fun po => !(po.data = []))

/-- One output record of the PO processor (`OUTPUT_HEADERS` of
`src/unnamed/part_000` line 8). -/
structure OutputRecord where
  invoiceNumber : String
  poNumbers : String
  description : String
  goods : String
  deriving DecidableEq, Repr

/-- The output-record construction of `processData`
(`src/unnamed/part_000` lines 191-202): iterate
`Object.entries(invoicePOMap)`, join non-empty POs and goods with a bare
comma, and default the description to `TYPE_NORMAL` when the type-map value
is absent or falsy. -/
def outputData (pm gm : List (String × List String)) (tm : List (String × String)) :
    List OutputRecord :=
  (objEntries pm).map (fun p =>
    { invoiceNumber := p.1
      poNumbers := String.intercalate (",") (p.2.filter (fun po => !(po.data = [])))
      description :=
        match lookupA tm p.1 with
        | none => TYPE_NORMAL
        | some t => if t.data = [] then TYPE_NORMAL else t
      goods :=
        String.intercalate (",")
          (((lookupA gm p.1).getD []).filter (fun g => !(g.data = []))) })

/-- Source: the full PO-mode `processData` pipeline of
`src/unnamed/part_000` lines 166-213 (data transformation part): build the
recycled set, scan the rows, classify, and emit the output records. -/
def processPO (poRows : List PORow) (recRows : List RecRow) : List OutputRecord :=
  outputData (processPOData poRows).1 (processPOData poRows).2
    (determineInvoiceType (processPOData poRows).1 (recycledPOSet recRows))

/-- Expected headers of the PO data file (`src/unnamed/part_000` line 6). -/
def PO_HEADERS : List String := ["Invoice", "PO", "Goods"]

/-- Expected headers of the recycled-POs file (`src/unnamed/part_000`
line 7). -/
def RECYCLED_HEADERS : List String := ["PO"]

/-- The mismatch message `validateHeaders` throws. -/
def headerMismatchMsg (expectedT gotT : List String) (fileName : String) : String :=
  "Header mismatch in " ++ fileName ++ ". Expected: [" ++
    String.intercalate (", ") expectedT ++ "], Got: [" ++
    String.intercalate (", ") gotT ++ "]"

/-- Source: `validateHeaders` of `src/unnamed/part_000` lines 37-44: trim
both lists and compare for exact sequence equality (the source compares
`JSON.stringify` images, which on string arrays is equivalent to array
equality); on mismatch, throw a message enumerating both lists. -/
def validateHeaders (headers expectedHeaders : List String) (fileName : String) :
    Except String Unit :=
  let normalizedHeaders := headers.map jsTrim
  let normalizedExpected := expectedHeaders.map jsTrim
  if normalizedHeaders = normalizedExpected then Except.ok ()
  else Except.error (headerMismatchMsg normalizedExpected normalizedHeaders fileName)

/-- Source: the `complete`-callback validation of `parseCSVFile`
(`src/unnamed/part_000` lines 54-79), after non-fatal warnings: empty data
is fatal, then missing headers, then the header check; on success the parsed
rows are returned.  `results.data` and `results.meta.fields` are the
callback's inputs and are parameters here. -/
def parseCSVFile {α : Type} (data : List α) (fields : List String)
    (expectedHeaders : List String) (fileName : String) : Except String (List α) :=
  if data.isEmpty then
    Except.error ("No valid data found in " ++ fileName ++ ". Please check the file format.")
  else if fields.isEmpty then
    Except.error ("No headers found in " ++ fileName ++ ". Please ensure the file has a header row.")
  else
    match validateHeaders fields expectedHeaders fileName with
    | Except.error e => Except.error e
    | Except.ok _ => Except.ok data

/-- The 12 required FCR columns (`src/Client/src/FCRGenerator.jsx` lines
19-23). -/
def requiredColumns : List String :=
  ["EXP Serial", "Invoice Date", "Entry Date", "Date of Contact",
   "Description", "PO Numbers", "Invoice No", "AD Code", "EXP Year",
   "Lc Contact", "Country short code", "Goods"]

/-- The required columns absent from `headers`
(`src/Client/src/FCRGenerator.jsx` line 114). -/
def fcrMissingColumns (headers : List String) : List String :=
  requiredColumns.filter (fun col => !headers.contains col)

/-- Source: the FCR upload validation (`src/Client/src/FCRGenerator.jsx`
lines 107-122): empty data is fatal; then every required column must appear
among the headers (order irrelevant, extras ignored), else the error names
the missing columns. -/
def fcrUpload {α : Type} (data : List α) (fields : List String) : Except String (List α) :=
  if data.isEmpty then Except.error ("No valid data found in file")
  else if !(fcrMissingColumns fields).isEmpty then
    Except.error ("Missing required columns: " ++ String.intercalate (", ") (fcrMissingColumns fields))
  else Except.ok data

/-- Is an `Except` a success? -/
def isOkE {ε α : Type} : Except ε α → Bool
  | Except.ok _ => true
  | Except.error _ => false

/-! ### Claim C2 -/

/-- The FCR-mode row of the end-to-end scenario (spec section 8, item 7). -/
def scenarioRow : FCRRow where
  expSerial := "7"
  invoiceDate := "2024-01-05"
  entryDate := "2024-01-06"
  dateOfContact := "2024-01-07"
  description := "Desc"
  poNumbers := "PO1"
  invoiceNo := "5"
  adCode := "123"
  expYear := "2024"
  lcContact := "LC1"
  countryShortCode := "US"
  goods := "Tableware"

/-- Claim C2 (code bug): on the scenario row, the `FCRGenerator.jsx` variant
of `processData` renders the EXP serial as `000NaN` — its
`parseInt(parseFloat, expSerial)` passes the `parseFloat` function as the
string to parse and the serial as the radix — so its EXP NO. line is
`123/000NaN/2024` instead of the claimed `123/000007/2024`; the sibling
`part_002` variant (correct `parseInt(parseFloat(expSerial), 10)`) produces
exactly the claimed 11-line template, with serial `000007`, all dates in
`DD-MM-YYYY`, the fixed `H. S. CODE: 6911.10.00` line and the
`<AD Code>/<serial>/<EXP Year>` EXP NO. line (its first line is the fixed
`100% PORCELAIN TABLEWARE` literal of the section 4.4 template). -/
theorem fcr_template_scenario :
    fcrFormattedTextGen scenarioRow =
      "Desc\nORDER NO. : PO1\nDESCRIPTION OF GOODS. : Tableware\nINVOICE NO. : 5\nDATE: 05-01-2024\nEXP NO. : 123/000NaN/2024\nDATE: 06-01-2024\nCONTRACT NO. : LC1\nDATE: 07-01-2024\nH. S. CODE: 6911.10.00\nCOUNTRY: US"
    ∧ fcrFormattedText scenarioRow =
      "100% PORCELAIN TABLEWARE\nORDER NO. : PO1\nDESCRIPTION OF GOODS. : Tableware\nINVOICE NO. : 5\nDATE: 05-01-2024\nEXP NO. : 123/000007/2024\nDATE: 06-01-2024\nCONTRACT NO. : LC1\nDATE: 07-01-2024\nH. S. CODE: 6911.10.00\nCOUNTRY: US" := by
  constructor
  · decide
  · decide

/-! ### Claim C5 -/

/-- Counterexample to claim C5: `formatExpSerial` does not return the empty
string on empty input — `parseFloat('')` is `NaN`, `parseInt(NaN, 10)` is
`NaN` (no exception is thrown, so the `catch` fallback is dead code), and
`NaN.toString().padStart(6, '0')` is `000NaN`. -/
theorem normalizers_empty_cex :
    formatExpSerial ("") = "000NaN" ∧ ¬formatExpSerial ("") = "" := by
  constructor
  · decide
  · decide

/-- Claim C5 as amended: all three normalizers are total Lean functions (they
never fail), `formatDate` and `formatNumber` return the empty string on an
empty or missing input, but `formatExpSerial` returns `000NaN` on an empty
or missing input. -/
theorem normalizers_empty_amended :
    formatDate ("") = "" ∧ formatNumber ("") = "" ∧ formatExpSerial ("") = "000NaN" := by
  refine ⟨by decide, by decide, by decide⟩

/-! ### Claim C6 -/

/-- Claim C6: PO-mode (and recycled-reference-mode) header validation
succeeds exactly when the trimmed header sequence equals the fixed expected
list — same names, same order, same count — and on failure the error
message enumerates both the expected and the received column lists. -/
theorem po_header_validation (headers : List String) (fileName : String) :
    (isOkE (validateHeaders headers PO_HEADERS fileName) = true ↔
      headers.map jsTrim = ["Invoice", "PO", "Goods"])
    ∧ (isOkE (validateHeaders headers RECYCLED_HEADERS fileName) = true ↔
      headers.map jsTrim = ["PO"])
    ∧ (headers.map jsTrim ≠ ["Invoice", "PO", "Goods"] →
      validateHeaders headers PO_HEADERS fileName =
        Except.error (headerMismatchMsg ["Invoice", "PO", "Goods"] (headers.map jsTrim) fileName))
    ∧ (headers.map jsTrim ≠ ["PO"] →
      validateHeaders headers RECYCLED_HEADERS fileName =
        Except.error (headerMismatchMsg ["PO"] (headers.map jsTrim) fileName)) := by
  have hpo : PO_HEADERS.map jsTrim = ["Invoice", "PO", "Goods"] := by decide
  have hrc : RECYCLED_HEADERS.map jsTrim = ["PO"] := by decide
  refine ⟨?_, ?_, ?_, ?_⟩
  · by_cases h : headers.map jsTrim = ["Invoice", "PO", "Goods"]
    · simp [validateHeaders, hpo, h, isOkE]
    · simp [validateHeaders, hpo, h, isOkE]
  · by_cases h : headers.map jsTrim = ["PO"]
    · simp [validateHeaders, hrc, h, isOkE]
    · simp [validateHeaders, hrc, h, isOkE]
  · intro hne
    simp [validateHeaders, hpo, hne]
  · intro hne
    simp [validateHeaders, hrc, hne]

/-- Witness for C6: the reordered header list `["PO", "Invoice", "Goods"]`
fails PO-mode validation with the enumerating message. -/
theorem po_header_validation_witness :
    (["PO", "Invoice", "Goods"].map jsTrim ≠ ["Invoice", "PO", "Goods"])
    ∧ validateHeaders ["PO", "Invoice", "Goods"] PO_HEADERS ("f.csv") =
      Except.error (headerMismatchMsg ["Invoice", "PO", "Goods"]
        (["PO", "Invoice", "Goods"].map jsTrim) ("f.csv")) :=
  ⟨by decide, (po_header_validation ["PO", "Invoice", "Goods"] ("f.csv")).2.2.1 (by decide)⟩

/-! ### Claim C7 -/

/-- Claim C7: FCR-mode header validation accepts exactly when every one of
the 12 required column names appears among the headers (order irrelevant,
extra columns ignored); the missing-column list contains exactly the
required columns that are absent, and the rejection message names them. -/
theorem fcr_header_validation {α : Type} (headers : List String) (data : List α)
    (hdata : data ≠ []) :
    (isOkE (fcrUpload data headers) = true ↔ ∀ c ∈ requiredColumns, c ∈ headers)
    ∧ (∀ c, c ∈ fcrMissingColumns headers ↔ (c ∈ requiredColumns ∧ c ∉ headers))
    ∧ (fcrMissingColumns headers ≠ [] →
      fcrUpload data headers =
        Except.error ("Missing required columns: " ++
          String.intercalate (", ") (fcrMissingColumns headers))) := by
  have hde : data.isEmpty = false := by
    cases data with
    | nil => exact absurd rfl hdata
    | cons a t => rfl
  have hmem : ∀ c, c ∈ fcrMissingColumns headers ↔ (c ∈ requiredColumns ∧ c ∉ headers) := by
    intro c
    unfold fcrMissingColumns
    simp [List.mem_filter, List.contains, List.elem_iff]
  have hnil : fcrMissingColumns headers = [] ↔ ∀ c ∈ requiredColumns, c ∈ headers := by
    rw [List.eq_nil_iff_forall_not_mem]
    constructor
    · intro h c hc
      by_contra hcn
      exact h c ((hmem c).mpr ⟨hc, hcn⟩)
    · intro h c hc
      obtain ⟨h1, h2⟩ := (hmem c).mp hc
      exact h2 (h c h1)
  refine ⟨?_, hmem, ?_⟩
  · by_cases hm : fcrMissingColumns headers = []
    · rw [← hnil]
      simp [fcrUpload, hde, hm, isOkE]
    · have hne : (fcrMissingColumns headers).isEmpty = false := by
        cases h : fcrMissingColumns headers with
        | nil => exact absurd h hm
        | cons a t => rfl
      rw [← hnil]
      simp [fcrUpload, hde, hne, isOkE, hm]
  · intro hm
    have hne : (fcrMissingColumns headers).isEmpty = false := by
      cases h : fcrMissingColumns headers with
      | nil => exact absurd h hm
      | cons a t => rfl
    simp [fcrUpload, hde, hne]

/-- Witness for C7: a header list missing all but `EXP Serial` is rejected
with the message naming exactly the missing columns; the full required list
is accepted. -/
theorem fcr_header_validation_witness :
    (([0] : List Nat) ≠ [])
    ∧ (fcrMissingColumns ["EXP Serial"] ≠ [])
    ∧ fcrUpload ([0] : List Nat) ["EXP Serial"] =
      Except.error ("Missing required columns: " ++
        String.intercalate (", ") (fcrMissingColumns ["EXP Serial"])) :=
  ⟨by decide, by decide,
    (fcr_header_validation ["EXP Serial"] ([0] : List Nat) (by decide)).2.2 (by decide)⟩

/-! ### Claim C9 -/

/-- Claim C9: a parse that yields zero data rows always fails — both the
PO-mode `parseCSVFile` completion check and the FCR-mode upload check refuse
empty data before any header validation, so an empty dataset is never
returned as a success. -/
theorem empty_parse_fails {α : Type} (data : List α) (fields expected : List String)
    (fileName : String) (h : data = []) :
    isOkE (parseCSVFile data fields expected fileName) = false
    ∧ isOkE (fcrUpload data fields) = false := by
  subst h
  exact ⟨rfl, rfl⟩

/-- Witness for C9: the empty dataset with the expected PO headers still
fails both checks. -/
theorem empty_parse_fails_witness :
    isOkE (parseCSVFile ([] : List PORow) PO_HEADERS PO_HEADERS ("po.csv")) = false
    ∧ isOkE (fcrUpload ([] : List PORow) PO_HEADERS) = false :=
  empty_parse_fails ([] : List PORow) PO_HEADERS PO_HEADERS ("po.csv") rfl

/-! ### Claim C4: date re-parsing machinery -/

theorem splitDash_ne_nil (cs : List Char) : splitDash cs ≠ [] := by
  cases cs with
  | nil => simp [splitDash]
  | cons c t =>
    unfold splitDash
    cases h : splitDash t with
    | nil => simp
    | cons h2 t2 =>
      by_cases hc : c = '-'
      · simp [hc]
      · simp [hc]

theorem splitDash_noDash_append {a : List Char} (xs : List Char)
    (ha : ∀ c ∈ a, c ≠ '-') :
    splitDash (a ++ xs) = (a ++ (splitDash xs).headD []) :: (splitDash xs).tail := by
  induction a with
  | nil =>
    cases h : splitDash xs with
    | nil => exact absurd h (splitDash_ne_nil xs)
    | cons h2 t2 => simp [h]
  | cons c a ih =>
    have hc : c ≠ '-' := ha c (by simp)
    have ih2 := ih (fun d hd => ha d (by simp [hd]))
    cases hx : splitDash xs with
    | nil => exact absurd hx (splitDash_ne_nil xs)
    | cons h2 t2 =>
      rw [hx] at ih2
      simp only [List.cons_append]
      conv_lhs => rw [splitDash]
      rw [ih2]
      simp [hc, hx]

theorem splitDash_dash_cons (xs : List Char) :
    splitDash ('-' :: xs) = [] :: splitDash xs := by
  cases h : splitDash xs with
  | nil => exact absurd h (splitDash_ne_nil xs)
  | cons h2 t2 =>
    conv_lhs => rw [splitDash, h]
    simp

theorem splitDash_noDash {a : List Char} (ha : ∀ c ∈ a, c ≠ '-') :
    splitDash a = [a] := by
  have h := splitDash_noDash_append [] ha
  simpa [splitDash] using h

theorem splitDash_three {a b c : List Char} (ha : ∀ x ∈ a, x ≠ '-')
    (hb : ∀ x ∈ b, x ≠ '-') (hc : ∀ x ∈ c, x ≠ '-') :
    splitDash (a ++ '-' :: (b ++ '-' :: c)) = [a, b, c] := by
  rw [splitDash_noDash_append ('-' :: (b ++ '-' :: c)) ha, splitDash_dash_cons,
    splitDash_noDash_append ('-' :: c) hb, splitDash_dash_cons, splitDash_noDash hc]
  simp

theorem isDigitC_charVal_lt {c : Char} (h : isDigitC c = true) : charVal c < 10 := by
  unfold isDigitC at h
  unfold charVal
  simp only [Bool.and_eq_true, decide_eq_true_eq] at h
  omega

theorem parseNatAll_some_lt {cs : List Char} {v : Nat} (h : parseNatAll cs = some v) :
    v < 10 ^ cs.length := by
  unfold parseNatAll at h
  split at h
  · next hcond =>
    obtain ⟨hne, hall⟩ := hcond
    injection h with h
    subst h
    unfold natOfChars
    have hb : ∀ d ∈ (cs.map charVal).reverse, d < 10 := by
      intro d hd
      rw [List.mem_reverse, List.mem_map] at hd
      obtain ⟨c, hcmem, rfl⟩ := hd
      exact isDigitC_charVal_lt (by
        rw [List.all_eq_true] at hall
        exact hall c hcmem)
    have hlt := Nat.ofDigits_lt_base_pow_length (show (1:Nat) < 10 by norm_num) hb
    simpa using hlt
  · exact absurd h (by simp)

theorem ofDigits_replicate_zero (k : Nat) : Nat.ofDigits 10 (List.replicate k 0) = 0 := by
  induction k with
  | zero => rfl
  | succ k ih => simp [List.replicate_succ, Nat.ofDigits_cons, ih]

theorem natOfChars_append_zeros (k : Nat) (cs : List Char) :
    natOfChars (List.replicate k '0' ++ cs) = natOfChars cs := by
  unfold natOfChars
  rw [List.map_append, List.reverse_append, Nat.ofDigits_append]
  have hrep : List.map charVal (List.replicate k '0') = List.replicate k 0 := by
    rw [List.map_replicate]
    rfl
  rw [hrep, List.reverse_replicate, ofDigits_replicate_zero]
  simp

theorem isDigitC_ne_dash {c : Char} (h : isDigitC c = true) : c ≠ '-' := by
  intro hc
  subst hc
  simp [isDigitC] at h

theorem isDigitC_ne_dot {c : Char} (h : isDigitC c = true) : c ≠ '.' := by
  intro hc
  subst hc
  simp [isDigitC] at h

theorem pad2_ne_nil (n : Nat) : pad2 n ≠ [] := by
  unfold pad2
  intro h
  rw [List.append_eq_nil] at h
  exact natChars_ne_nil n h.2

theorem pad2_all_digit (n : Nat) : (pad2 n).all isDigitC = true := by
  unfold pad2
  rw [List.all_append]
  have h1 : (List.replicate (2 - (natChars n).length) '0').all isDigitC = true := by
    rw [List.all_eq_true]
    intro c hc
    rw [List.mem_replicate] at hc
    rw [hc.2]
    decide
  rw [h1, natChars_all_digit]
  rfl

theorem pad2_no_dash (n : Nat) : ∀ c ∈ pad2 n, c ≠ '-' := by
  intro c hc
  have hall := pad2_all_digit n
  rw [List.all_eq_true] at hall
  exact isDigitC_ne_dash (hall c hc)

theorem natChars_no_dash' (n : Nat) : ∀ c ∈ natChars n, c ≠ '-' := by
  intro c hc
  have hall := natChars_all_digit n
  rw [List.all_eq_true] at hall
  exact isDigitC_ne_dash (hall c hc)

theorem pad2_length {n : Nat} (h : n < 100) : (pad2 n).length = 2 := by
  unfold pad2
  rw [List.length_append, List.length_replicate]
  have hle : (natChars n).length ≤ 2 := natChars_length_le (by norm_num) h
  omega

theorem parseNatAll_pad2 (n : Nat) : parseNatAll (pad2 n) = some n := by
  unfold parseNatAll
  rw [if_pos ⟨pad2_ne_nil n, pad2_all_digit n⟩]
  unfold pad2
  rw [natOfChars_append_zeros, natOfChars_natChars]

theorem daysInMonth_le_31 (y m : Nat) : daysInMonth y m ≤ 31 := by
  unfold daysInMonth
  split
  · split <;> norm_num
  · split <;> norm_num

theorem natChars_length_four {y : Nat} (h1 : 1000 ≤ y) (h2 : y < 10000) :
    (natChars y).length = 4 := by
  have hle : (natChars y).length ≤ 4 := natChars_length_le (by norm_num) h2
  have hge : 3 < (natChars y).length := natChars_length_ge (show 10 ^ 3 ≤ y by simpa using h1)
  omega

theorem natChars_length_ne_four {y : Nat} (h : y < 1000) :
    (natChars y).length ≠ 4 := by
  have hle : (natChars y).length ≤ 3 := natChars_length_le (by norm_num) h
  omega

/-- Bounds extracted from a successful date parse: the month is in `[1,12]`,
the day in `[1,31]` and the year below 10000 (both accepted formats carry a
4-digit year). -/
theorem jsDateParse_bounds {s : String} {y m d : Nat}
    (h : jsDateParse s = some (y, m, d)) :
    1 ≤ m ∧ m ≤ 12 ∧ 1 ≤ d ∧ d ≤ 31 ∧ y < 10000 := by
  unfold jsDateParse at h
  split at h
  · next p1 p2 p3 heq =>
    unfold jsDateParse3 at h
    split at h
    · next hiso =>
      split at h
      · next y0 m0 d0 hy hm hd =>
        split at h
        · next hcond =>
          simp only [Option.some.injEq, Prod.mk.injEq] at h
          obtain ⟨rfl, rfl, rfl⟩ := h
          have hylt : y0 < 10 ^ p1.length := parseNatAll_some_lt hy
          rw [hiso.1] at hylt
          have hdm := daysInMonth_le_31 y0 m0
          refine ⟨hcond.1, hcond.2.1, hcond.2.2.1, le_trans hcond.2.2.2 hdm, ?_⟩
          norm_num at hylt
          omega
        · exact absurd h (by simp)
      · exact absurd h (by simp)
    · split at h
      · next hus =>
        split at h
        · next m0 d0 y0 hm hd hy =>
          split at h
          · next hcond =>
            simp only [Option.some.injEq, Prod.mk.injEq] at h
            obtain ⟨rfl, rfl, rfl⟩ := h
            have hylt : y0 < 10 ^ p3.length := parseNatAll_some_lt hy
            rw [hus.2.2] at hylt
            refine ⟨hcond.1, hcond.2.1, hcond.2.2.1, hcond.2.2.2, ?_⟩
            norm_num at hylt
            omega
          · exact absurd h (by simp)
        · exact absurd h (by simp)
      · exact absurd h (by simp)
  · exact absurd h (by simp)

theorem jsDateParse_of_split {s : String} {p1 p2 p3 : List Char}
    (h : splitDash s.data = [p1, p2, p3]) :
    jsDateParse s = jsDateParse3 p1 p2 p3 := by
  unfold jsDateParse
  rw [h]

/-- How the engine re-parses the `DD-MM-YYYY` string `formatDate` itself
produced: the first component is read as the month, so the result is the
day/month-swapped date when the day fits a month slot and the year printed
as 4 digits, and an invalid date otherwise. -/
theorem jsDateParse_fmtDMY {y m d : Nat} (hm1 : 1 ≤ m) (hm2 : m ≤ 12)
    (hd1 : 1 ≤ d) (hd2 : d ≤ 31) (hy : y < 10000) :
    jsDateParse (fmtDMY y m d) = if 12 < d ∨ y < 1000 then none else some (y, d, m) := by
  have hd100 : d < 100 := by omega
  have hm100 : m < 100 := by omega
  have hdata : (fmtDMY y m d).data = pad2 d ++ ('-' :: (pad2 m ++ ('-' :: natChars y))) := rfl
  have hsplit : splitDash (fmtDMY y m d).data = [pad2 d, pad2 m, natChars y] := by
    rw [hdata]
    exact splitDash_three (pad2_no_dash d) (pad2_no_dash m) (natChars_no_dash' y)
  rw [jsDateParse_of_split hsplit]
  unfold jsDateParse3
  have hc1 : ¬((pad2 d).length = 4 ∧ (pad2 m).length = 2 ∧ (natChars y).length = 2) := by
    rw [pad2_length hd100]
    intro hcontra
    exact absurd hcontra.1 (by norm_num)
  rw [if_neg hc1]
  by_cases hy3 : 1000 ≤ y
  · have hlen4 : (natChars y).length = 4 := natChars_length_four hy3 hy
    have hc2 : (1 ≤ (pad2 d).length ∧ (pad2 d).length ≤ 2)
        ∧ (1 ≤ (pad2 m).length ∧ (pad2 m).length ≤ 2) ∧ (natChars y).length = 4 := by
      rw [pad2_length hd100, pad2_length hm100, hlen4]
      norm_num
    rw [if_pos hc2, parseNatAll_pad2, parseNatAll_pad2, parseNatAll_natChars]
    show (if 1 ≤ d ∧ d ≤ 12 ∧ 1 ≤ m ∧ m ≤ 31 then some (y, d, m) else none)
      = if 12 < d ∨ y < 1000 then none else some (y, d, m)
    by_cases hdle : d ≤ 12
    · rw [if_pos (show 1 ≤ d ∧ d ≤ 12 ∧ 1 ≤ m ∧ m ≤ 31 from ⟨hd1, hdle, hm1, by omega⟩),
        if_neg (show ¬(12 < d ∨ y < 1000) by omega)]
    · rw [if_neg (show ¬(1 ≤ d ∧ d ≤ 12 ∧ 1 ≤ m ∧ m ≤ 31) by omega),
        if_pos (show 12 < d ∨ y < 1000 from Or.inl (by omega))]
  · have hlen : (natChars y).length ≠ 4 := natChars_length_ne_four (by omega)
    have hc2 : ¬((1 ≤ (pad2 d).length ∧ (pad2 d).length ≤ 2)
        ∧ (1 ≤ (pad2 m).length ∧ (pad2 m).length ≤ 2) ∧ (natChars y).length = 4) := by
      intro hcontra
      exact hlen hcontra.2.2
    rw [if_neg hc2, if_pos (show 12 < d ∨ y < 1000 from Or.inr (by omega))]

theorem jsDateParse_nil {s : String} (h : s.data = []) : jsDateParse s = none := by
  unfold jsDateParse
  rw [h]
  rfl

theorem formatDate_of_parse {s : String} {y m d : Nat}
    (h : jsDateParse s = some (y, m, d)) : formatDate s = fmtDMY y m d := by
  have hne : ¬s.data = [] := by
    intro hnil
    rw [jsDateParse_nil hnil] at h
    exact absurd h (by simp)
  unfold formatDate
  rw [if_neg hne, h]

theorem fmtDMY_data_ne_nil (y m d : Nat) : (fmtDMY y m d).data ≠ [] := by
  show pad2 d ++ ('-' :: (pad2 m ++ ('-' :: natChars y))) ≠ []
  simp

/-! ### Claim C4: theorems -/

/-- Counterexample to claim C4: `normalizeDate` is not idempotent on the
parseable input `2024-01-05` — the first application yields `05-01-2024`,
which the engine re-parses as the US-convention 1 May 2024, so the second
application yields `01-05-2024`; in particular the already-formatted
`DD-MM-YYYY` string `05-01-2024` does not re-format to itself. -/
theorem normalizeDate_idempotent_cex :
    formatDate ("2024-01-05") = "05-01-2024"
    ∧ formatDate (formatDate ("2024-01-05")) = "01-05-2024"
    ∧ ¬formatDate (formatDate ("2024-01-05")) = formatDate ("2024-01-05") := by
  refine ⟨by decide, by decide, by decide⟩

/-- Claim C4 as amended: `normalizeDate` is idempotent on a parseable input
whose date has day greater than 12 or day equal to month (then the formatted
`DD-MM-YYYY` string either fails to re-parse or re-parses to the same date);
for day at most 12 and different from the month, the second application
swaps day and month, because the engine reads the formatted string as
`MM-DD-YYYY`. -/
theorem normalizeDate_idempotent_amended {s : String} {y m d : Nat}
    (hp : jsDateParse s = some (y, m, d)) (hcase : 12 < d ∨ d = m) :
    formatDate (formatDate s) = formatDate s := by
  obtain ⟨hm1, hm2, hd1, hd2, hy⟩ := jsDateParse_bounds hp
  rw [formatDate_of_parse hp]
  have hre := jsDateParse_fmtDMY hm1 hm2 hd1 hd2 hy
  rcases hcase with hgt | heq
  · rw [if_pos (Or.inl hgt)] at hre
    unfold formatDate
    rw [if_neg (fmtDMY_data_ne_nil y m d), hre]
  · by_cases hy3 : y < 1000
    · rw [if_pos (Or.inr hy3)] at hre
      unfold formatDate
      rw [if_neg (fmtDMY_data_ne_nil y m d), hre]
    · rw [if_neg (by omega)] at hre
      unfold formatDate
      rw [if_neg (fmtDMY_data_ne_nil y m d), hre, heq]

/-- Witness for the amended C4: `2024-12-25` parses, has day 25 > 12, and
`normalizeDate` is idempotent on it. -/
theorem normalizeDate_idempotent_witness :
    jsDateParse ("2024-12-25") = some (2024, 12, 25)
    ∧ formatDate (formatDate ("2024-12-25")) = formatDate ("2024-12-25") :=
  ⟨by decide,
    @normalizeDate_idempotent_amended ("2024-12-25") 2024 12 25 (by decide) (Or.inl (by decide))⟩

/-! ### Claim C3: parseInt-of-toString round trip -/

theorem jsWs_of_digit {c : Char} (h : isDigitC c = true) : jsWs c = false := by
  unfold isDigitC at h
  simp only [Bool.and_eq_true, decide_eq_true_eq] at h
  unfold jsWs
  simp only [Bool.or_eq_false_iff, decide_eq_false_iff_not]
  omega

theorem isDigitC_ne_plus {c : Char} (h : isDigitC c = true) : c ≠ '+' := by
  intro hc
  subst hc
  simp [isDigitC] at h

theorem stripSign_cons_other {c : Char} {t : List Char} (h1 : c ≠ '-') (h2 : c ≠ '+') :
    stripSign (c :: t) = (false, c :: t) := by
  show (if c = '-' then ((true : Bool), t) else if c = '+' then ((false : Bool), t)
    else (false, c :: t)) = (false, c :: t)
  rw [if_neg h1, if_neg h2]

theorem stripSign_dash (t : List Char) : stripSign ('-' :: t) = (true, t) := by
  show (if ('-' : Char) = '-' then ((true : Bool), t) else if ('-' : Char) = '+'
    then ((false : Bool), t) else (false, '-' :: t)) = (true, t)
  rw [if_pos rfl]

theorem takeWhile_append_all {p : Char → Bool} {l1 : List Char} (l2 : List Char)
    (h : l1.all p = true) : (l1 ++ l2).takeWhile p = l1 ++ l2.takeWhile p := by
  induction l1 with
  | nil => rfl
  | cons c t ih =>
    rw [List.all_cons, Bool.and_eq_true] at h
    simp only [List.cons_append, List.takeWhile_cons, h.1, if_true, ih h.2]

theorem digitValExt_of_digit {c : Char} (h : isDigitC c = true) :
    digitValExt c = some (charVal c) := by
  unfold isDigitC at h
  simp only [Bool.and_eq_true, decide_eq_true_eq] at h
  unfold digitValExt charVal
  rw [if_pos h]

theorem isRadixDigit_ten_of_digit {c : Char} (h : isDigitC c = true) :
    isRadixDigit 10 c = true := by
  have hv := digitValExt_of_digit h
  have hlt : charVal c < 10 := isDigitC_charVal_lt h
  unfold isRadixDigit
  rw [hv]
  simpa using hlt

theorem isRadixDigit_ten_dot : isRadixDigit 10 '.' = false := by decide

/-- Digit-run extraction of `parseInt` base 10 recovers exactly the printed
integer part: the run is the whole numeral and stops at the decimal point. -/
theorem takeWhile_radix_numeral (ip : Nat) (fracPart : List Char)
    (hfrac : fracPart = [] ∨ ∃ t, fracPart = '.' :: t) :
    (natChars ip ++ fracPart).takeWhile (isRadixDigit 10) = natChars ip := by
  have hall : (natChars ip).all (isRadixDigit 10) = true := by
    rw [List.all_eq_true]
    intro c hc
    have hd := natChars_all_digit ip
    rw [List.all_eq_true] at hd
    exact isRadixDigit_ten_of_digit (hd c hc)
  rw [takeWhile_append_all fracPart hall]
  rcases hfrac with rfl | ⟨t, rfl⟩
  · simp
  · simp [List.takeWhile_cons, isRadixDigit_ten_dot]

theorem map_digitValExt_natChars (ip : Nat) :
    (natChars ip).map (fun c => (digitValExt c).getD 0) = (natChars ip).map charVal := by
  apply List.map_congr_left
  intro c hc
  have hd := natChars_all_digit ip
  rw [List.all_eq_true] at hd
  rw [digitValExt_of_digit (hd c hc)]
  rfl

theorem data_mk (l : List Char) : (String.mk l).data = l := rfl

theorem jsParseInt_ten (s : String) :
    jsParseInt s 10 = jsParseIntCore 10 (stripSign (s.data.dropWhile jsWs)).2
      (stripSign (s.data.dropWhile jsWs)).1 := by
  unfold jsParseInt
  rw [if_neg (by norm_num), if_neg (by norm_num), if_neg (by norm_num)]
  rfl

/-- Base-10 digit-run evaluation on a printed numeral followed by an
optional fractional tail. -/
theorem jsParseIntCore_numeral (ip : Nat) (fracPart : List Char) (neg : Bool)
    (hfrac : fracPart = [] ∨ ∃ t, fracPart = '.' :: t) :
    jsParseIntCore 10 (natChars ip ++ fracPart) neg =
      some ((if neg then -1 else 1) * (ip : Int)) := by
  unfold jsParseIntCore
  rw [takeWhile_radix_numeral ip fracPart hfrac, if_neg (natChars_ne_nil ip),
    map_digitValExt_natChars]
  have hv : Nat.ofDigits 10 (((natChars ip).map charVal).reverse) = ip :=
    natOfChars_natChars ip
  rw [hv]

/-- Round trip at the heart of `formatExpSerial`: `parseInt` in base 10 on
the printed value of an exact decimal recovers its truncation toward zero. -/
theorem jsParseInt_jsNumToString (n : JSNum) :
    jsParseInt (jsNumToString n) 10 = some (jsTruncInt n) := by
  obtain ⟨ng, ip, frac⟩ := n
  rw [jsParseInt_ten]
  have hfshape : (if trimFracZeros frac = [] then ([] : List Char)
      else '.' :: (trimFracZeros frac).map digitCh) = []
      ∨ ∃ t, (if trimFracZeros frac = [] then ([] : List Char)
      else '.' :: (trimFracZeros frac).map digitCh) = '.' :: t := by
    split
    · exact Or.inl rfl
    · exact Or.inr ⟨_, rfl⟩
  by_cases hsgn : ng = true ∧ (ip ≠ 0 ∨ trimFracZeros frac ≠ [])
  · have hdata : (jsNumToString ⟨ng, ip, frac⟩).data =
        '-' :: (natChars ip ++
          (if trimFracZeros frac = [] then [] else '.' :: (trimFracZeros frac).map digitCh)) := by
      unfold jsNumToString
      rw [data_mk, if_pos hsgn]
      rfl
    rw [hdata]
    rw [List.dropWhile_cons]
    rw [show jsWs '-' = false by decide]
    simp only [Bool.false_eq_true, if_false]
    rw [stripSign_dash]
    rw [jsParseIntCore_numeral ip _ true hfshape]
    unfold jsTruncInt
    simp [hsgn.1]
  · have hdata : (jsNumToString ⟨ng, ip, frac⟩).data =
        natChars ip ++
          (if trimFracZeros frac = [] then [] else '.' :: (trimFracZeros frac).map digitCh) := by
      unfold jsNumToString
      rw [data_mk, if_neg hsgn]
      rfl
    obtain ⟨c, t, hct⟩ : ∃ c t, natChars ip = c :: t := by
      cases h : natChars ip with
      | nil => exact absurd h (natChars_ne_nil ip)
      | cons c t => exact ⟨c, t, rfl⟩
    have hcd : isDigitC c = true := by
      have hd := natChars_all_digit ip
      rw [List.all_eq_true] at hd
      exact hd c (by rw [hct]; simp)
    rw [hdata, hct, List.cons_append, List.dropWhile_cons, jsWs_of_digit hcd]
    simp only [Bool.false_eq_true, if_false]
    rw [stripSign_cons_other (isDigitC_ne_dash hcd) (isDigitC_ne_plus hcd)]
    rw [show (c :: (t ++ (if trimFracZeros frac = [] then []
      else '.' :: (trimFracZeros frac).map digitCh)))
      = natChars ip ++ (if trimFracZeros frac = [] then []
        else '.' :: (trimFracZeros frac).map digitCh) by rw [hct]; rfl]
    rw [jsParseIntCore_numeral ip _ false hfshape]
    unfold jsTruncInt
    rcases Bool.eq_false_or_eq_true ng with hng | hng
    · have hz : ip = 0 := by
        by_contra hip
        exact hsgn ⟨hng, Or.inl hip⟩
      simp [hng, hz]
    · simp [hng]

/-- Counterexample to claim C3: the non-numeric input `abc` is not returned
unchanged — `parseFloat('abc')` is `NaN`, `parseInt(NaN, 10)` is `NaN`
without ever throwing (the `catch` fallback is dead code), and the padded
rendering is `000NaN`. -/
theorem normalizeSerial_passThrough_cex :
    formatExpSerial ("abc") = "000NaN" ∧ ¬formatExpSerial ("abc") = "abc" := by
  refine ⟨by decide, by decide⟩

/-- Claim C3 as amended: for an input that does not parse as a number,
`normalizeSerial` returns `000NaN` (the padded rendering of `NaN`), not its
input; for an input that parses as a number, it returns the value truncated
toward zero, rendered in decimal and left-padded with zeros to 6
characters. -/
theorem normalizeSerial_amended (s : String) :
    (jsParseFloat s = none → formatExpSerial s = "000NaN")
    ∧ ∀ n, jsParseFloat s = some n →
      formatExpSerial s = jsPadStart (String.mk (intChars (jsTruncInt n))) 6 '0' := by
  constructor
  · intro h
    unfold formatExpSerial
    rw [h]
    decide
  · intro n h
    unfold formatExpSerial
    rw [h]
    show jsPadStart (intOptToString (jsParseInt (jsNumToString n) 10)) 6 '0' = _
    rw [jsParseInt_jsNumToString]
    rfl

/-- Witness for the amended C3: a non-numeric and a numeric concrete
input. -/
theorem normalizeSerial_amended_witness :
    (jsParseFloat ("xyz") = none ∧ formatExpSerial ("xyz") = "000NaN")
    ∧ jsParseFloat ("41.9") = some ⟨false, 41, [9]⟩
    ∧ formatExpSerial ("41.9") =
      jsPadStart (String.mk (intChars (jsTruncInt ⟨false, 41, [9]⟩))) 6 '0' :=
  ⟨⟨by decide, (normalizeSerial_amended ("xyz")).1 (by decide)⟩,
    by decide, (normalizeSerial_amended ("41.9")).2 ⟨false, 41, [9]⟩ (by decide)⟩

/-! ### Association-list facts for the PO scan -/

theorem lookupA_cons {α : Type} (p : String × α) (rest : List (String × α)) (k : String) :
    lookupA (p :: rest) k = if p.1 = k then some p.2 else lookupA rest k := rfl

theorem appendAt_cons (p : String × List String) (rest : List (String × List String))
    (k v : String) :
    appendAt (p :: rest) k v =
      (if p.1 = k then (p.1, p.2 ++ [v]) else p) :: appendAt rest k v := rfl

theorem str_data_eq_nil {s : String} : s.data = [] ↔ s = "" := by
  constructor
  · intro h
    cases s with
    | mk l =>
      simp only at h
      subst h
      rfl
  · intro h
    subst h
    rfl

theorem lookupA_isSome_iff_mem {α : Type} {m : List (String × α)} {k : String} :
    (lookupA m k).isSome = true ↔ k ∈ m.map Prod.fst := by
  induction m with
  | nil => simp [lookupA]
  | cons p rest ih =>
    unfold lookupA
    by_cases hk : p.1 = k
    · simp [hk]
    · rw [if_neg hk]
      simp only [List.map_cons, List.mem_cons]
      rw [ih]
      constructor
      · intro h; exact Or.inr h
      · rintro (h | h)
        · exact absurd h.symm hk
        · exact h

theorem lookupA_eq_none_iff {α : Type} {m : List (String × α)} {k : String} :
    lookupA m k = none ↔ k ∉ m.map Prod.fst := by
  rw [← lookupA_isSome_iff_mem]
  cases h : lookupA m k <;> simp

theorem lookupA_append_left_none {α : Type} {m m2 : List (String × α)} {k : String}
    (h : lookupA m k = none) : lookupA (m ++ m2) k = lookupA m2 k := by
  induction m with
  | nil => rfl
  | cons p rest ih =>
    rw [lookupA_cons] at h
    rw [List.cons_append, lookupA_cons]
    by_cases hk : p.1 = k
    · rw [if_pos hk] at h
      exact absurd h (by simp)
    · rw [if_neg hk] at h
      rw [if_neg hk]
      exact ih h

theorem lookupA_append_left_some {α : Type} {m m2 : List (String × α)} {k : String} {v : α}
    (h : lookupA m k = some v) : lookupA (m ++ m2) k = some v := by
  induction m with
  | nil => exact absurd h (by simp [lookupA])
  | cons p rest ih =>
    rw [lookupA_cons] at h
    rw [List.cons_append, lookupA_cons]
    by_cases hk : p.1 = k
    · rw [if_pos hk] at h
      rw [if_pos hk]
      exact h
    · rw [if_neg hk] at h
      rw [if_neg hk]
      exact ih h

theorem appendAt_map_fst (m : List (String × List String)) (k v : String) :
    (appendAt m k v).map Prod.fst = m.map Prod.fst := by
  unfold appendAt
  rw [List.map_map]
  apply List.map_congr_left
  intro p _
  by_cases hk : p.1 = k
  · simp [hk]
  · simp [hk]

theorem lookupA_appendAt_self (m : List (String × List String)) (k v : String) :
    lookupA (appendAt m k v) k = (lookupA m k).map (fun l => l ++ [v]) := by
  induction m with
  | nil => rfl
  | cons p rest ih =>
    rw [appendAt_cons, lookupA_cons, lookupA_cons]
    by_cases hk : p.1 = k
    · rw [if_pos hk]
      show (if p.1 = k then some (p.2 ++ [v]) else lookupA (appendAt rest k v) k) = _
      rw [if_pos hk, if_pos hk]
      rfl
    · rw [if_neg hk]
      rw [if_neg hk, if_neg hk]
      exact ih

theorem lookupA_appendAt_other {m : List (String × List String)} {k k' v : String}
    (h : k' ≠ k) : lookupA (appendAt m k v) k' = lookupA m k' := by
  induction m with
  | nil => rfl
  | cons p rest ih =>
    rw [appendAt_cons, lookupA_cons, lookupA_cons]
    by_cases hk : p.1 = k
    · rw [if_pos hk]
      show (if p.1 = k' then some (p.2 ++ [v]) else lookupA (appendAt rest k v) k') = _
      rw [if_neg (by rw [hk]; exact fun hh => h hh.symm),
        if_neg (by rw [hk]; exact fun hh => h hh.symm)]
      exact ih
    · rw [if_neg hk]
      by_cases hk2 : p.1 = k'
      · rw [if_pos hk2, if_pos hk2]
      · rw [if_neg hk2, if_neg hk2]
        exact ih

theorem lookupA_of_mem_nodup {α : Type} {m : List (String × α)} {p : String × α}
    (hnd : (m.map Prod.fst).Nodup) (hmem : p ∈ m) : lookupA m p.1 = some p.2 := by
  induction m with
  | nil => exact absurd hmem (by simp)
  | cons q rest ih =>
    rw [List.map_cons, List.nodup_cons] at hnd
    rw [List.mem_cons] at hmem
    rw [lookupA_cons]
    rcases hmem with rfl | hmem
    · rw [if_pos rfl]
    · have hq : q.1 ≠ p.1 := by
        intro hh
        exact hnd.1 (hh ▸ List.mem_map.mpr ⟨p, hmem, rfl⟩)
      rw [if_neg hq]
      exact ih hnd.2 hmem

theorem mem_of_lookupA {α : Type} {m : List (String × α)} {k : String} {v : α}
    (h : lookupA m k = some v) : (k, v) ∈ m := by
  induction m with
  | nil => exact absurd h (by simp [lookupA])
  | cons p rest ih =>
    rw [lookupA_cons] at h
    by_cases hk : p.1 = k
    · rw [if_pos hk] at h
      injection h with h
      have hpv : (k, v) = p := by rw [← hk, ← h]
      exact List.mem_cons.mpr (Or.inl hpv)
    · rw [if_neg hk] at h
      exact List.mem_cons_of_mem p (ih h)

theorem lookupA_some_of_mem_keys {α : Type} {m : List (String × α)} {k : String}
    (h : k ∈ m.map Prod.fst) : ∃ v, lookupA m k = some v := by
  have hs := lookupA_isSome_iff_mem.mpr h
  cases hv : lookupA m k with
  | none => rw [hv] at hs; exact absurd hs (by simp)
  | some v => exact ⟨v, rfl⟩

theorem mem_objEntries {α : Type} {m : List (String × α)} {p : String × α} :
    p ∈ objEntries m ↔ p ∈ m := by
  unfold objEntries
  rw [List.mem_append]
  constructor
  · rintro (h | h)
    · have hp := (List.perm_insertionSort
        (fun p q => keyNum p.1 ≤ keyNum q.1) (m.filter (fun q => isArrayIndexKey q.1))).mem_iff.mp h
      exact (List.mem_filter.mp hp).1
    · exact (List.mem_filter.mp h).1
  · intro h
    by_cases hk : isArrayIndexKey p.1
    · left
      exact (List.perm_insertionSort
        (fun p q => keyNum p.1 ≤ keyNum q.1) (m.filter (fun q => isArrayIndexKey q.1))).mem_iff.mpr
        (List.mem_filter.mpr ⟨h, hk⟩)
    · right
      exact List.mem_filter.mpr ⟨h, by simp [hk]⟩

theorem objEntries_eq_self {α : Type} {m : List (String × α)}
    (h : ∀ p ∈ m, isArrayIndexKey p.1 = false) : objEntries m = m := by
  unfold objEntries
  have h1 : m.filter (fun q => isArrayIndexKey q.1) = [] := by
    rw [List.filter_eq_nil_iff]
    intro p hp
    simp [h p hp]
  have h2 : m.filter (fun q => !isArrayIndexKey q.1) = m := by
    rw [List.filter_eq_self]
    intro p hp
    simp [h p hp]
  rw [h1, h2]
  rfl

/-! ### Spec-side descriptions of the scan (refinement targets for C8) -/

/-- Spec-side description (follows the spec's words, to be compared with the
fold of `processPOData`): the trimmed, non-empty invoice numbers not yet
seen, in the order they are first encountered scanning left to right. -/
def spec_newInvoices (seen : List String) : List PORow → List String
  | [] => []
  | r :: rs =>
    if (jsTrim r.invoice).data = [] then spec_newInvoices seen rs
    else if jsTrim r.invoice ∈ seen then spec_newInvoices seen rs
    else jsTrim r.invoice :: spec_newInvoices (jsTrim r.invoice :: seen) rs

/-- Spec-side description: invoices in the order first seen during the
left-to-right scan. -/
def spec_firstSeenInvoices (rows : List PORow) : List String :=
  spec_newInvoices [] rows

/-- Spec-side description: the trimmed, non-empty PO values of the rows
referencing invoice `inv`, in row order. -/
def spec_poValues (inv : String) (rows : List PORow) : List String :=
  rows.filterMap (fun r =>
    if jsTrim r.invoice = inv ∧ (jsTrim r.po).data ≠ [] then some (jsTrim r.po) else none)

/-- Spec-side description: the trimmed, non-empty goods values of the rows
referencing invoice `inv`, in row order. -/
def spec_goodsValues (inv : String) (rows : List PORow) : List String :=
  rows.filterMap (fun r =>
    if jsTrim r.invoice = inv ∧ (jsTrim r.goods).data ≠ [] then some (jsTrim r.goods) else none)

theorem spec_newInvoices_congr {s1 s2 : List String} (rows : List PORow)
    (h : ∀ x, x ∈ s1 ↔ x ∈ s2) :
    spec_newInvoices s1 rows = spec_newInvoices s2 rows := by
  induction rows generalizing s1 s2 with
  | nil => rfl
  | cons r rs ih =>
    unfold spec_newInvoices
    by_cases he : (jsTrim r.invoice).data = []
    · rw [if_pos he, if_pos he]
      exact ih h
    · rw [if_neg he, if_neg he]
      by_cases hs : jsTrim r.invoice ∈ s1
      · rw [if_pos hs, if_pos ((h _).mp hs)]
        exact ih h
      · rw [if_neg hs, if_neg (fun hh => hs ((h _).mpr hh))]
        congr 1
        apply ih
        intro x
        simp only [List.mem_cons]
        rw [h x]

theorem mem_spec_newInvoices {seen : List String} {rows : List PORow} {x : String}
    (h : x ∈ spec_newInvoices seen rows) : x ∉ seen ∧ x ≠ "" := by
  induction rows generalizing seen with
  | nil => exact absurd h (by simp [spec_newInvoices])
  | cons r rs ih =>
    unfold spec_newInvoices at h
    by_cases he : (jsTrim r.invoice).data = []
    · rw [if_pos he] at h
      exact ih h
    · rw [if_neg he] at h
      by_cases hs : jsTrim r.invoice ∈ seen
      · rw [if_pos hs] at h
        exact ih h
      · rw [if_neg hs] at h
        rw [List.mem_cons] at h
        rcases h with rfl | h
        · exact ⟨hs, fun hh => he (str_data_eq_nil.mpr hh)⟩
        · have := ih h
          exact ⟨fun hh => this.1 (List.mem_cons_of_mem _ hh), this.2⟩

theorem spec_newInvoices_nodup (seen : List String) (rows : List PORow) :
    (spec_newInvoices seen rows).Nodup := by
  induction rows generalizing seen with
  | nil => exact List.nodup_nil
  | cons r rs ih =>
    unfold spec_newInvoices
    by_cases he : (jsTrim r.invoice).data = []
    · rw [if_pos he]
      exact ih seen
    · rw [if_neg he]
      by_cases hs : jsTrim r.invoice ∈ seen
      · rw [if_pos hs]
        exact ih seen
      · rw [if_neg hs]
        rw [List.nodup_cons]
        refine ⟨fun hh => ?_, ih _⟩
        exact (mem_spec_newInvoices hh).1 (List.mem_cons_self _ _)

theorem mem_spec_poValues {inv v : String} {rows : List PORow}
    (h : v ∈ spec_poValues inv rows) : v.data ≠ [] := by
  unfold spec_poValues at h
  rw [List.mem_filterMap] at h
  obtain ⟨r, _, hr⟩ := h
  split at hr
  · next hc =>
    injection hr with hr
    rw [← hr]
    exact hc.2
  · exact absurd hr (by simp)

theorem mem_spec_goodsValues {inv v : String} {rows : List PORow}
    (h : v ∈ spec_goodsValues inv rows) : v.data ≠ [] := by
  unfold spec_goodsValues at h
  rw [List.mem_filterMap] at h
  obtain ⟨r, _, hr⟩ := h
  split at hr
  · next hc =>
    injection hr with hr
    rw [← hr]
    exact hc.2
  · exact absurd hr (by simp)

theorem poPush_map_fst (m : List (String × List String)) (k v : String) :
    (poPush m k v).map Prod.fst = m.map Prod.fst := by
  unfold poPush
  split
  · rfl
  · exact appendAt_map_fst m k v

theorem lookupA_poPush_other {m : List (String × List String)} {k k' v : String}
    (h : k' ≠ k) : lookupA (poPush m k v) k' = lookupA m k' := by
  unfold poPush
  split
  · rfl
  · exact lookupA_appendAt_other h

theorem lookupA_poPush_self {m : List (String × List String)} {k v : String} {l : List String}
    (h : lookupA m k = some l) :
    lookupA (poPush m k v) k = some (l ++ (if v.data = [] then [] else [v])) := by
  unfold poPush
  split
  · next he => rw [h]; simp
  · next he =>
    rw [lookupA_appendAt_self, h]
    simp [he]

theorem spec_poValues_cons (inv : String) (r : PORow) (rs : List PORow) :
    spec_poValues inv (r :: rs) =
      if jsTrim r.invoice = inv ∧ (jsTrim r.po).data ≠ []
      then jsTrim r.po :: spec_poValues inv rs else spec_poValues inv rs := by
  unfold spec_poValues
  rw [List.filterMap_cons]
  by_cases hc : jsTrim r.invoice = inv ∧ (jsTrim r.po).data ≠ []
  · rw [if_pos hc, if_pos hc]
  · rw [if_neg hc, if_neg hc]

theorem spec_goodsValues_cons (inv : String) (r : PORow) (rs : List PORow) :
    spec_goodsValues inv (r :: rs) =
      if jsTrim r.invoice = inv ∧ (jsTrim r.goods).data ≠ []
      then jsTrim r.goods :: spec_goodsValues inv rs else spec_goodsValues inv rs := by
  unfold spec_goodsValues
  rw [List.filterMap_cons]
  by_cases hc : jsTrim r.invoice = inv ∧ (jsTrim r.goods).data ≠ []
  · rw [if_pos hc, if_pos hc]
  · rw [if_neg hc, if_neg hc]

/-- Characterization of the `processPOData` scan, generalized over initial
accumulators: the key sequence extends by the first-seen new invoices, the
PO-map and goods-map keys stay aligned, and each invoice's accumulated list
is its spec-side value list. -/
theorem poScan_char (rows : List PORow) :
    ∀ pm gm : List (String × List String),
    pm.map Prod.fst = gm.map Prod.fst →
    ((rows.foldl poStep (pm, gm)).1.map Prod.fst
        = pm.map Prod.fst ++ spec_newInvoices (pm.map Prod.fst) rows)
    ∧ ((rows.foldl poStep (pm, gm)).2.map Prod.fst
        = gm.map Prod.fst ++ spec_newInvoices (pm.map Prod.fst) rows)
    ∧ (∀ inv, inv ≠ "" →
        lookupA (rows.foldl poStep (pm, gm)).1 inv =
          (match lookupA pm inv with
          | some l => some (l ++ spec_poValues inv rows)
          | none => if inv ∈ spec_newInvoices (pm.map Prod.fst) rows
              then some (spec_poValues inv rows) else none))
    ∧ (∀ inv, inv ≠ "" →
        lookupA (rows.foldl poStep (pm, gm)).2 inv =
          (match lookupA gm inv with
          | some l => some (l ++ spec_goodsValues inv rows)
          | none => if inv ∈ spec_newInvoices (pm.map Prod.fst) rows
              then some (spec_goodsValues inv rows) else none)) := by
  induction rows with
  | nil =>
    intro pm gm hkeys
    refine ⟨by simp [spec_newInvoices], by simp [spec_newInvoices], ?_, ?_⟩
    · intro inv _
      simp only [List.foldl_nil]
      cases hl : lookupA pm inv with
      | some l => simp [spec_poValues, spec_newInvoices]
      | none => simp [spec_newInvoices]
    · intro inv _
      simp only [List.foldl_nil]
      cases hl : lookupA gm inv with
      | some l => simp [spec_goodsValues, spec_newInvoices]
      | none => simp [spec_newInvoices]
  | cons r rs ih =>
    intro pm gm hkeys
    simp only [List.foldl_cons]
    by_cases hinv : (jsTrim r.invoice).data = []
    · -- row skipped: empty invoice
      have hstep : poStep (pm, gm) r = (pm, gm) := by
        unfold poStep
        rw [if_pos hinv]
      rw [hstep]
      obtain ⟨ih1, ih2, ih3, ih4⟩ := ih pm gm hkeys
      have hs : spec_newInvoices (pm.map Prod.fst) (r :: rs)
          = spec_newInvoices (pm.map Prod.fst) rs := by
        rw [spec_newInvoices, if_pos hinv]
      have hIeq : jsTrim r.invoice = "" := str_data_eq_nil.mp hinv
      refine ⟨by rw [ih1, hs], by rw [ih2, hs], ?_, ?_⟩
      · intro inv hne
        have hpv : spec_poValues inv (r :: rs) = spec_poValues inv rs := by
          rw [spec_poValues_cons, if_neg]
          intro hc
          exact hne (by rw [← hc.1, hIeq])
        rw [hpv, hs]
        exact ih3 inv hne
      · intro inv hne
        have hpv : spec_goodsValues inv (r :: rs) = spec_goodsValues inv rs := by
          rw [spec_goodsValues_cons, if_neg]
          intro hc
          exact hne (by rw [← hc.1, hIeq])
        rw [hpv, hs]
        exact ih4 inv hne
    · by_cases hpres : containsKey pm (jsTrim r.invoice) = true
      · -- invoice already present: both maps only get pushes
        have hstep : poStep (pm, gm) r =
            (poPush pm (jsTrim r.invoice) (jsTrim r.po),
              poPush gm (jsTrim r.invoice) (jsTrim r.goods)) := by
          unfold poStep
          rw [if_neg hinv, if_pos hpres]
        rw [hstep]
        have hkeys2 : (poPush pm (jsTrim r.invoice) (jsTrim r.po)).map Prod.fst
            = (poPush gm (jsTrim r.invoice) (jsTrim r.goods)).map Prod.fst := by
          rw [poPush_map_fst, poPush_map_fst, hkeys]
        obtain ⟨ih1, ih2, ih3, ih4⟩ := ih _ _ hkeys2
        have hImem : jsTrim r.invoice ∈ pm.map Prod.fst :=
          lookupA_isSome_iff_mem.mp hpres
        have hs : spec_newInvoices (pm.map Prod.fst) (r :: rs)
            = spec_newInvoices (pm.map Prod.fst) rs := by
          rw [spec_newInvoices, if_neg hinv, if_pos hImem]
        refine ⟨?_, ?_, ?_, ?_⟩
        · rw [ih1, poPush_map_fst, hs]
        · rw [ih2, poPush_map_fst, poPush_map_fst, hs]
        · intro inv hne
          rw [ih3 inv hne, poPush_map_fst, hs, spec_poValues_cons]
          by_cases hiv : inv = jsTrim r.invoice
          · rw [hiv]
            obtain ⟨l, hl⟩ := lookupA_some_of_mem_keys hImem
            rw [lookupA_poPush_self hl, hl]
            by_cases hpo : (jsTrim r.po).data = []
            · rw [if_pos hpo, if_neg (show ¬(jsTrim r.invoice = jsTrim r.invoice
                ∧ (jsTrim r.po).data ≠ []) from fun hc => hc.2 hpo)]
              simp
            · rw [if_neg hpo, if_pos (show jsTrim r.invoice = jsTrim r.invoice
                ∧ (jsTrim r.po).data ≠ [] from ⟨rfl, hpo⟩)]
              simp
          · rw [lookupA_poPush_other hiv,
              if_neg (show ¬(jsTrim r.invoice = inv ∧ (jsTrim r.po).data ≠ [])
                from fun hc => hiv hc.1.symm)]
        · intro inv hne
          rw [ih4 inv hne, poPush_map_fst, hs, spec_goodsValues_cons]
          by_cases hiv : inv = jsTrim r.invoice
          · rw [hiv]
            have hImemG : jsTrim r.invoice ∈ gm.map Prod.fst := by
              rw [← hkeys]
              exact hImem
            obtain ⟨l, hl⟩ := lookupA_some_of_mem_keys hImemG
            rw [lookupA_poPush_self hl, hl]
            by_cases hgo : (jsTrim r.goods).data = []
            · rw [if_pos hgo, if_neg (show ¬(jsTrim r.invoice = jsTrim r.invoice
                ∧ (jsTrim r.goods).data ≠ []) from fun hc => hc.2 hgo)]
              simp
            · rw [if_neg hgo, if_pos (show jsTrim r.invoice = jsTrim r.invoice
                ∧ (jsTrim r.goods).data ≠ [] from ⟨rfl, hgo⟩)]
              simp
          · rw [lookupA_poPush_other hiv,
              if_neg (show ¬(jsTrim r.invoice = inv ∧ (jsTrim r.goods).data ≠ [])
                from fun hc => hiv hc.1.symm)]
      · -- first sight of this invoice: create in both maps, then push
        have hstep : poStep (pm, gm) r =
            (poPush (pm ++ [(jsTrim r.invoice, [])]) (jsTrim r.invoice) (jsTrim r.po),
              poPush (gm ++ [(jsTrim r.invoice, [])]) (jsTrim r.invoice) (jsTrim r.goods)) := by
          unfold poStep
          rw [if_neg hinv, if_neg hpres]
        rw [hstep]
        have hkeys1 : (poPush (pm ++ [(jsTrim r.invoice, [])]) (jsTrim r.invoice)
            (jsTrim r.po)).map Prod.fst = pm.map Prod.fst ++ [jsTrim r.invoice] := by
          rw [poPush_map_fst, List.map_append]
          rfl
        have hkeys1g : (poPush (gm ++ [(jsTrim r.invoice, [])]) (jsTrim r.invoice)
            (jsTrim r.goods)).map Prod.fst = gm.map Prod.fst ++ [jsTrim r.invoice] := by
          rw [poPush_map_fst, List.map_append]
          rfl
        have hkeys2 : (poPush (pm ++ [(jsTrim r.invoice, [])]) (jsTrim r.invoice)
            (jsTrim r.po)).map Prod.fst
            = (poPush (gm ++ [(jsTrim r.invoice, [])]) (jsTrim r.invoice)
              (jsTrim r.goods)).map Prod.fst := by
          rw [hkeys1, hkeys1g, hkeys]
        obtain ⟨ih1, ih2, ih3, ih4⟩ := ih _ _ hkeys2
        have hInot : jsTrim r.invoice ∉ pm.map Prod.fst := by
          intro hmem
          exact hpres (lookupA_isSome_iff_mem.mpr hmem)
        have hs : spec_newInvoices (pm.map Prod.fst) (r :: rs)
            = jsTrim r.invoice :: spec_newInvoices (jsTrim r.invoice :: pm.map Prod.fst) rs := by
          rw [spec_newInvoices, if_neg hinv, if_neg hInot]
        have hcong : spec_newInvoices (pm.map Prod.fst ++ [jsTrim r.invoice]) rs
            = spec_newInvoices (jsTrim r.invoice :: pm.map Prod.fst) rs := by
          apply spec_newInvoices_congr
          intro x
          simp only [List.mem_append, List.mem_cons, List.mem_singleton]
          tauto
        refine ⟨?_, ?_, ?_, ?_⟩
        · rw [ih1, hkeys1, hcong, hs]
          simp
        · rw [ih2, hkeys1g, hkeys1, hcong, hs]
          simp
        · intro inv hne
          rw [ih3 inv hne, hkeys1, hcong, hs, spec_poValues_cons]
          by_cases hiv : inv = jsTrim r.invoice
          · rw [hiv]
            have hlpm : lookupA pm (jsTrim r.invoice) = none :=
              lookupA_eq_none_iff.mpr hInot
            have hl1 : lookupA (pm ++ [(jsTrim r.invoice, [])]) (jsTrim r.invoice)
                = some [] := by
              rw [lookupA_append_left_none hlpm, lookupA_cons, if_pos rfl]
            rw [lookupA_poPush_self hl1, hlpm]
            by_cases hpo : (jsTrim r.po).data = []
            · rw [if_pos hpo, if_neg (show ¬(jsTrim r.invoice = jsTrim r.invoice
                ∧ (jsTrim r.po).data ≠ []) from fun hc => hc.2 hpo),
                if_pos (List.mem_cons_self _ _)]
              simp
            · rw [if_neg hpo, if_pos (show jsTrim r.invoice = jsTrim r.invoice
                ∧ (jsTrim r.po).data ≠ [] from ⟨rfl, hpo⟩),
                if_pos (List.mem_cons_self _ _)]
              simp
          · have hl1 : lookupA (pm ++ [(jsTrim r.invoice, [])]) inv = lookupA pm inv := by
              cases hl : lookupA pm inv with
              | some l => exact lookupA_append_left_some hl
              | none =>
                rw [lookupA_append_left_none hl, lookupA_cons,
                  if_neg (fun hh => hiv hh.symm)]
                rfl
            rw [lookupA_poPush_other hiv, hl1,
              if_neg (show ¬(jsTrim r.invoice = inv ∧ (jsTrim r.po).data ≠ [])
                from fun hc => hiv hc.1.symm)]
            cases hl : lookupA pm inv with
            | some l => rfl
            | none =>
              have hmemiff : (inv ∈ spec_newInvoices (jsTrim r.invoice :: pm.map Prod.fst) rs)
                  ↔ (inv ∈ jsTrim r.invoice :: spec_newInvoices
                    (jsTrim r.invoice :: pm.map Prod.fst) rs) := by
                rw [List.mem_cons]
                constructor
                · intro h; exact Or.inr h
                · rintro (h | h)
                  · exact absurd h hiv
                  · exact h
              by_cases hmem : inv ∈ spec_newInvoices (jsTrim r.invoice :: pm.map Prod.fst) rs
              · rw [if_pos hmem, if_pos (hmemiff.mp hmem)]
              · rw [if_neg hmem, if_neg (fun hh => hmem (hmemiff.mpr hh))]
        · intro inv hne
          rw [ih4 inv hne, hkeys1, hcong, hs, spec_goodsValues_cons]
          have hInotG : jsTrim r.invoice ∉ gm.map Prod.fst := by
            rw [← hkeys]
            exact hInot
          by_cases hiv : inv = jsTrim r.invoice
          · rw [hiv]
            have hlgm : lookupA gm (jsTrim r.invoice) = none :=
              lookupA_eq_none_iff.mpr hInotG
            have hl1 : lookupA (gm ++ [(jsTrim r.invoice, [])]) (jsTrim r.invoice)
                = some [] := by
              rw [lookupA_append_left_none hlgm, lookupA_cons, if_pos rfl]
            rw [lookupA_poPush_self hl1, hlgm]
            by_cases hgo : (jsTrim r.goods).data = []
            · rw [if_pos hgo, if_neg (show ¬(jsTrim r.invoice = jsTrim r.invoice
                ∧ (jsTrim r.goods).data ≠ []) from fun hc => hc.2 hgo),
                if_pos (List.mem_cons_self _ _)]
              simp
            · rw [if_neg hgo, if_pos (show jsTrim r.invoice = jsTrim r.invoice
                ∧ (jsTrim r.goods).data ≠ [] from ⟨rfl, hgo⟩),
                if_pos (List.mem_cons_self _ _)]
              simp
          · have hl1 : lookupA (gm ++ [(jsTrim r.invoice, [])]) inv = lookupA gm inv := by
              cases hl : lookupA gm inv with
              | some l => exact lookupA_append_left_some hl
              | none =>
                rw [lookupA_append_left_none hl, lookupA_cons,
                  if_neg (fun hh => hiv hh.symm)]
                rfl
            rw [lookupA_poPush_other hiv, hl1,
              if_neg (show ¬(jsTrim r.invoice = inv ∧ (jsTrim r.goods).data ≠ [])
                from fun hc => hiv hc.1.symm)]
            cases hl : lookupA gm inv with
            | some l => rfl
            | none =>
              have hmemiff : (inv ∈ spec_newInvoices (jsTrim r.invoice :: pm.map Prod.fst) rs)
                  ↔ (inv ∈ jsTrim r.invoice :: spec_newInvoices
                    (jsTrim r.invoice :: pm.map Prod.fst) rs) := by
                rw [List.mem_cons]
                constructor
                · intro h; exact Or.inr h
                · rintro (h | h)
                  · exact absurd h hiv
                  · exact h
              by_cases hmem : inv ∈ spec_newInvoices (jsTrim r.invoice :: pm.map Prod.fst) rs
              · rw [if_pos hmem, if_pos (hmemiff.mp hmem)]
              · rw [if_neg hmem, if_neg (fun hh => hmem (hmemiff.mpr hh))]

/-- The scan characterization instantiated at the empty accumulators of
`processPOData`. -/
theorem processPOData_char (rows : List PORow) :
    ((processPOData rows).1.map Prod.fst = spec_firstSeenInvoices rows)
    ∧ ((processPOData rows).2.map Prod.fst = spec_firstSeenInvoices rows)
    ∧ (∀ inv, inv ≠ "" →
        lookupA (processPOData rows).1 inv =
          (if inv ∈ spec_firstSeenInvoices rows then some (spec_poValues inv rows) else none))
    ∧ (∀ inv, inv ≠ "" →
        lookupA (processPOData rows).2 inv =
          (if inv ∈ spec_firstSeenInvoices rows then some (spec_goodsValues inv rows) else none)) := by
  obtain ⟨h1, h2, h3, h4⟩ := poScan_char rows [] [] rfl
  unfold processPOData spec_firstSeenInvoices
  refine ⟨by simpa using h1, by simpa using h2, ?_, ?_⟩
  · intro inv hne
    have := h3 inv hne
    simpa using this
  · intro inv hne
    have := h4 inv hne
    simpa using this

theorem processPOData_keys_nodup (rows : List PORow) :
    ((processPOData rows).1.map Prod.fst).Nodup := by
  rw [(processPOData_char rows).1]
  exact spec_newInvoices_nodup [] rows

theorem classifyPO_ne_empty (pos recycledSet : List String) :
    classifyPO pos recycledSet ≠ "" := by
  unfold classifyPO
  split
  · decide
  · split
    · decide
    · decide

/-- The Boolean `hasRecycled`/`hasNormal` tests as propositions. -/
theorem classifyPO_spec (pos recycledSet : List String) :
    (classifyPO pos recycledSet = TYPE_MIXED ↔
      ((∃ po ∈ pos, po ∈ recycledSet) ∧ ∃ po ∈ pos, po ∉ recycledSet ∧ po ≠ ""))
    ∧ (classifyPO pos recycledSet = TYPE_RECYCLED ↔
      (¬((∃ po ∈ pos, po ∈ recycledSet) ∧ ∃ po ∈ pos, po ∉ recycledSet ∧ po ≠ "")
        ∧ ∃ po ∈ pos, po ∈ recycledSet))
    ∧ (classifyPO pos recycledSet = TYPE_NORMAL ↔ ¬∃ po ∈ pos, po ∈ recycledSet) := by
  have hR : (pos.any (fun po => recycledSet.contains po) = true)
      ↔ ∃ po ∈ pos, po ∈ recycledSet := by
    rw [List.any_eq_true]
    constructor
    · rintro ⟨po, hpo, hc⟩
      exact ⟨po, hpo, List.elem_iff.mp hc⟩
    · rintro ⟨po, hpo, hc⟩
      exact ⟨po, hpo, List.elem_iff.mpr hc⟩
  have hN : (pos.any (fun po => !recycledSet.contains po && !(po.data = [])) = true)
      ↔ ∃ po ∈ pos, po ∉ recycledSet ∧ po ≠ "" := by
    rw [List.any_eq_true]
    constructor
    · rintro ⟨po, hpo, hc⟩
      rw [Bool.and_eq_true, Bool.not_eq_true', Bool.not_eq_true'] at hc
      refine ⟨po, hpo, fun hmem => ?_, fun hemp => ?_⟩
      · have hT : recycledSet.contains po = true := List.elem_iff.mpr hmem
        rw [hT] at hc
        exact absurd hc.1 (by simp)
      · have := hc.2
        simp only [decide_eq_false_iff_not] at this
        exact this (str_data_eq_nil.mpr hemp)
    · rintro ⟨po, hpo, hm, he⟩
      refine ⟨po, hpo, ?_⟩
      rw [Bool.and_eq_true, Bool.not_eq_true', Bool.not_eq_true']
      constructor
      · cases hc : recycledSet.contains po with
        | false => rfl
        | true => exact absurd (List.elem_iff.mp hc) hm
      · simp only [decide_eq_false_iff_not]
        intro hd
        exact he (str_data_eq_nil.mp hd)
  have hmr : TYPE_MIXED ≠ TYPE_RECYCLED := by decide
  have hmn : TYPE_MIXED ≠ TYPE_NORMAL := by decide
  have hrn : TYPE_RECYCLED ≠ TYPE_NORMAL := by decide
  unfold classifyPO
  by_cases hRb : pos.any (fun po => recycledSet.contains po) = true
  · by_cases hNb : pos.any (fun po => !recycledSet.contains po && !(po.data = [])) = true
    · rw [if_pos (by rw [hRb, hNb]; rfl)]
      refine ⟨?_, ?_, ?_⟩
      · simp [hR.mp hRb, hN.mp hNb]
      · constructor
        · intro h; exact absurd h hmr
        · rintro ⟨hcon, _⟩
          exact absurd ⟨hR.mp hRb, hN.mp hNb⟩ hcon
      · constructor
        · intro h; exact absurd h hmn
        · intro hcon
          exact absurd (hR.mp hRb) hcon
    · rw [if_neg (by rw [hRb]; simpa using hNb), if_pos hRb]
      refine ⟨?_, ?_, ?_⟩
      · constructor
        · intro h; exact absurd h.symm hmr
        · rintro ⟨_, hNn⟩
          exact absurd (hN.mpr hNn) hNb
      · constructor
        · intro _
          exact ⟨fun hc => hNb (hN.mpr hc.2), hR.mp hRb⟩
        · intro _; rfl
      · constructor
        · intro h; exact absurd h hrn
        · intro hcon
          exact absurd (hR.mp hRb) hcon
  · have hRf : pos.any (fun po => recycledSet.contains po) = false := by
      simpa using hRb
    rw [if_neg (by rw [hRf]; simp), if_neg hRb]
    refine ⟨?_, ?_, ?_⟩
    · constructor
      · intro h; exact absurd h.symm hmn
      · rintro ⟨hRr, _⟩
        exact absurd (hR.mpr hRr) hRb
    · constructor
      · intro h; exact absurd h.symm hrn
      · rintro ⟨_, hRr⟩
        exact absurd (hR.mpr hRr) hRb
    · constructor
      · intro _
        intro hcon
        exact absurd (hR.mpr hcon) hRb
      · intro _; rfl

/-! ### Claim C1 -/

/-- Claim C1: for every invoice produced by the PO-mode aggregation (an
entry of the invoice→PO map), its assigned material type appears in the
type map and is `TYPE_MIXED` exactly when some accumulated PO is in the
recycled set and some non-empty PO is not; `TYPE_RECYCLED` exactly when it
is not mixed and some PO is in the set; `TYPE_NORMAL` exactly when no PO is
in the set — in particular for an empty accumulated PO list. -/
theorem invoiceType_classification (rows : List PORow) (recRows : List RecRow)
    (inv : String) (pos : List String)
    (hmem : (inv, pos) ∈ (processPOData rows).1) :
    ((inv, classifyPO pos (recycledPOSet recRows))
        ∈ determineInvoiceType (processPOData rows).1 (recycledPOSet recRows))
    ∧ (classifyPO pos (recycledPOSet recRows) = TYPE_MIXED ↔
      ((∃ po ∈ pos, po ∈ recycledPOSet recRows)
        ∧ ∃ po ∈ pos, po ∉ recycledPOSet recRows ∧ po ≠ ""))
    ∧ (classifyPO pos (recycledPOSet recRows) = TYPE_RECYCLED ↔
      (¬((∃ po ∈ pos, po ∈ recycledPOSet recRows)
          ∧ ∃ po ∈ pos, po ∉ recycledPOSet recRows ∧ po ≠ "")
        ∧ ∃ po ∈ pos, po ∈ recycledPOSet recRows))
    ∧ (classifyPO pos (recycledPOSet recRows) = TYPE_NORMAL ↔
      ¬∃ po ∈ pos, po ∈ recycledPOSet recRows)
    ∧ (pos = [] → classifyPO pos (recycledPOSet recRows) = TYPE_NORMAL) := by
  obtain ⟨h1, h2, h3⟩ := classifyPO_spec pos (recycledPOSet recRows)
  refine ⟨?_, h1, h2, h3, ?_⟩
  · unfold determineInvoiceType
    exact List.mem_map.mpr ⟨(inv, pos), mem_objEntries.mpr hmem, rfl⟩
  · intro hpos
    rw [h3, hpos]
    rintro ⟨po, hpo, _⟩
    exact absurd hpo (by simp)

/-- Demonstration rows for the aggregation witnesses (spec section 8,
items 4-6). -/
def demoRows : List PORow := [⟨"A", "P1", "G1"⟩, ⟨"A", "P2", "G2"⟩]

/-- Demonstration recycled-reference rows. -/
def demoRec : List RecRow := [⟨"P1"⟩]

/-- Witness for C1: invoice `A` accumulates `["P1", "P2"]`; with recycled
set `{P1}` the classification facts hold at that entry. -/
theorem invoiceType_classification_witness :
    (("A", ["P1", "P2"]) ∈ (processPOData demoRows).1)
    ∧ ((("A", classifyPO ["P1", "P2"] (recycledPOSet demoRec))
        ∈ determineInvoiceType (processPOData demoRows).1 (recycledPOSet demoRec))
      ∧ (classifyPO ["P1", "P2"] (recycledPOSet demoRec) = TYPE_MIXED ↔
        ((∃ po ∈ ["P1", "P2"], po ∈ recycledPOSet demoRec)
          ∧ ∃ po ∈ ["P1", "P2"], po ∉ recycledPOSet demoRec ∧ po ≠ ""))
      ∧ (classifyPO ["P1", "P2"] (recycledPOSet demoRec) = TYPE_RECYCLED ↔
        (¬((∃ po ∈ ["P1", "P2"], po ∈ recycledPOSet demoRec)
            ∧ ∃ po ∈ ["P1", "P2"], po ∉ recycledPOSet demoRec ∧ po ≠ "")
          ∧ ∃ po ∈ ["P1", "P2"], po ∈ recycledPOSet demoRec))
      ∧ (classifyPO ["P1", "P2"] (recycledPOSet demoRec) = TYPE_NORMAL ↔
        ¬∃ po ∈ ["P1", "P2"], po ∈ recycledPOSet demoRec)
      ∧ ((["P1", "P2"] : List String) = [] →
        classifyPO ["P1", "P2"] (recycledPOSet demoRec) = TYPE_NORMAL)) :=
  ⟨by decide, invoiceType_classification demoRows demoRec ("A") ["P1", "P2"] (by decide)⟩

/-! ### Claim C10 -/

/-- Claim C10: the PO map, goods map and type map of a PO-mode run have the
same key sequence, and for every entry the output pass iterates over, the
type-map lookup yields a non-empty type string and the goods-map lookup
succeeds — so neither the `TYPE_NORMAL` description fallback nor the `[]`
goods fallback of `outputData` is ever taken. -/
theorem typeMap_domains_align (rows : List PORow) (recRows : List RecRow) :
    ((processPOData rows).1.map Prod.fst = (processPOData rows).2.map Prod.fst)
    ∧ ((determineInvoiceType (processPOData rows).1 (recycledPOSet recRows)).map Prod.fst
        = (objEntries (processPOData rows).1).map Prod.fst)
    ∧ ∀ p ∈ objEntries (processPOData rows).1,
        (∃ t, lookupA (determineInvoiceType (processPOData rows).1 (recycledPOSet recRows)) p.1
            = some t ∧ t ≠ "")
        ∧ ∃ g, lookupA (processPOData rows).2 p.1 = some g := by
  obtain ⟨hk1, hk2, _, _⟩ := processPOData_char rows
  refine ⟨by rw [hk1, hk2], ?_, ?_⟩
  · unfold determineInvoiceType
    rw [List.map_map]
    rfl
  · intro p hp
    constructor
    · have hmemk : p.1 ∈ (determineInvoiceType (processPOData rows).1
          (recycledPOSet recRows)).map Prod.fst := by
        unfold determineInvoiceType
        rw [List.map_map]
        exact List.mem_map.mpr ⟨p, hp, rfl⟩
      obtain ⟨t, ht⟩ := lookupA_some_of_mem_keys hmemk
      refine ⟨t, ht, ?_⟩
      have hin := mem_of_lookupA ht
      unfold determineInvoiceType at hin
      obtain ⟨q, _, hq⟩ := List.mem_map.mp hin
      have : t = classifyPO q.2 (recycledPOSet recRows) := by
        have := congrArg Prod.snd hq
        exact this.symm
      rw [this]
      exact classifyPO_ne_empty q.2 (recycledPOSet recRows)
    · have hmemg : p.1 ∈ (processPOData rows).2.map Prod.fst := by
        rw [hk2, ← hk1]
        exact List.mem_map.mpr ⟨p, mem_objEntries.mp hp, rfl⟩
      exact lookupA_some_of_mem_keys hmemg

/-- Witness for C10 at the demonstration rows: the single entry
`("A", ["P1", "P2"])` has a non-empty type and a goods list. -/
theorem typeMap_domains_align_witness :
    (("A", ["P1", "P2"]) ∈ objEntries (processPOData demoRows).1)
    ∧ ((∃ t, lookupA (determineInvoiceType (processPOData demoRows).1
          (recycledPOSet demoRec)) ("A") = some t ∧ t ≠ "")
      ∧ ∃ g, lookupA (processPOData demoRows).2 ("A") = some g) :=
  ⟨by decide,
    (typeMap_domains_align demoRows demoRec).2.2 ("A", ["P1", "P2"]) (by decide)⟩

/-! ### Claim C8 -/

/-- Counterexample to claim C8: with invoices `2` then `1` (canonical
array-index strings as JavaScript object keys), `Object.entries` enumerates
them in ascending numeric order, so the output records appear as `1, 2` and
not in the first-seen order `2, 1`. -/
theorem po_output_order_cex :
    (processPO [⟨"2", "P1", "G1"⟩, ⟨"1", "P2", "G2"⟩] []).map (fun rec => rec.invoiceNumber)
        = ["1", "2"]
    ∧ spec_firstSeenInvoices [⟨"2", "P1", "G1"⟩, ⟨"1", "P2", "G2"⟩] = ["2", "1"]
    ∧ ¬(processPO [⟨"2", "P1", "G1"⟩, ⟨"1", "P2", "G2"⟩] []).map (fun rec => rec.invoiceNumber)
        = spec_firstSeenInvoices [⟨"2", "P1", "G1"⟩, ⟨"1", "P2", "G2"⟩] := by
  refine ⟨by decide, by decide, by decide⟩

/-- Claim C8 as amended: provided no invoice key is a canonical array-index
string, the PO-mode output records appear in the order invoices were first
seen during the left-to-right scan, and within each invoice the comma-joined
PO numbers and goods values follow first-seen row order with empty values
filtered out before joining.  (When invoice keys are array-index strings,
JavaScript object property order enumerates them first in ascending numeric
order instead of insertion order.) -/
theorem po_output_order_amended (rows : List PORow) (recRows : List RecRow)
    (hidx : ∀ inv ∈ (processPOData rows).1.map Prod.fst, isArrayIndexKey inv = false) :
    ((processPO rows recRows).map (fun rec => rec.invoiceNumber) = spec_firstSeenInvoices rows)
    ∧ ∀ rec ∈ processPO rows recRows,
        rec.poNumbers = String.intercalate (",") (spec_poValues rec.invoiceNumber rows)
        ∧ rec.goods = String.intercalate (",") (spec_goodsValues rec.invoiceNumber rows) := by
  obtain ⟨hk1, hk2, hl1, hl2⟩ := processPOData_char rows
  have hobj : objEntries (processPOData rows).1 = (processPOData rows).1 :=
    objEntries_eq_self (fun p hp => hidx p.1 (List.mem_map.mpr ⟨p, hp, rfl⟩))
  constructor
  · unfold processPO outputData
    rw [hobj, List.map_map, ← hk1]
    apply List.map_congr_left
    intro p _
    rfl
  · intro rec hrec
    unfold processPO outputData at hrec
    rw [hobj] at hrec
    obtain ⟨p, hp, rfl⟩ := List.mem_map.mp hrec
    have hpk : p.1 ∈ spec_firstSeenInvoices rows := by
      rw [← hk1]
      exact List.mem_map.mpr ⟨p, hp, rfl⟩
    have hpne : p.1 ≠ "" := (mem_spec_newInvoices hpk).2
    have hlp : lookupA (processPOData rows).1 p.1 = some (spec_poValues p.1 rows) := by
      rw [hl1 p.1 hpne, if_pos hpk]
    have hlg : lookupA (processPOData rows).2 p.1 = some (spec_goodsValues p.1 rows) := by
      rw [hl2 p.1 hpne, if_pos hpk]
    have hmemlk : lookupA (processPOData rows).1 p.1 = some p.2 :=
      lookupA_of_mem_nodup (processPOData_keys_nodup rows) hp
    have hp2 : p.2 = spec_poValues p.1 rows := by
      rw [hmemlk] at hlp
      injection hlp
    constructor
    · show String.intercalate (",") (p.2.filter (fun po => !(po.data = []))) = _
      rw [hp2]
      congr 1
      rw [List.filter_eq_self]
      intro v hv
      simpa using mem_spec_poValues hv
    · show String.intercalate (",")
        ((((lookupA (processPOData rows).2 p.1).getD []).filter (fun g => !(g.data = [])))) = _
      rw [hlg]
      show String.intercalate (",") ((spec_goodsValues p.1 rows).filter _) = _
      congr 1
      rw [List.filter_eq_self]
      intro v hv
      simpa using mem_spec_goodsValues hv

/-- Witness for the amended C8: with the non-numeric invoice key `A`, the
output order is the first-seen order and the joins are the spec-side
values. -/
theorem po_output_order_amended_witness :
    (∀ inv ∈ (processPOData demoRows).1.map Prod.fst, isArrayIndexKey inv = false)
    ∧ (((processPO demoRows demoRec).map (fun rec => rec.invoiceNumber)
        = spec_firstSeenInvoices demoRows)
      ∧ ∀ rec ∈ processPO demoRows demoRec,
          rec.poNumbers = String.intercalate (",") (spec_poValues rec.invoiceNumber demoRows)
          ∧ rec.goods = String.intercalate (",") (spec_goodsValues rec.invoiceNumber demoRows)) :=
  ⟨by decide, po_output_order_amended demoRows demoRec (by decide)⟩

end Demco

